import Mathlib

/-!
Shallow embedding of the phase-gated task delegation core of the
ai-agent-dev-team-sdk repository (src/ai_agent_sdk/core): the rules engine
(rules_engine.py), the prompt cache of the context manager
(context_manager.py), the agent registry and TeamLeader facade
(team_leader.py), and the task orchestrator lifecycle
(task_orchestrator.py).  Python ints are modelled as Lean Int, Python
strings as Lean String (as List Char where character-level splitting
matters), dicts keeping insertion order as association lists with the
oldest binding in front, and raised exceptions as Except values.
-/

namespace RulesEngine

/-- Development phases of the ten-phase process, in declaration order
(rules_engine.py, class Phase). -/
inductive Phase
  | initialization
  | research
  | planning
  | context_preparation
  | validation
  | implementation
  | verification
  | testing
  | user_value_validation
  | documentation
  | preparation
deriving DecidableEq, Repr

/-- The order list(Phase) used by _get_next_phase. -/
def phaseOrder : List Phase :=
  [.initialization, .research, .planning, .context_preparation, .validation,
   .implementation, .verification, .testing, .user_value_validation,
   .documentation, .preparation]

/-- Configuration for a development phase (dataclass PhaseConfig).  The
Python Set[str] of allowed tasks is modelled as a list of strings. -/
structure PhaseConfig where
  name : String
  allowed_tasks : List String
  completion_criteria : List String
  max_complexity : Int
  timeout_seconds : Int
deriving DecidableEq, Repr

/-- Task specification (dataclass TaskSpec); the optional project_id and
the metadata map are ignored by every function modelled here. -/
structure TaskSpec where
  task_id : String
  agent_type : String
  task_type : String
  task : String
  complexity : Int
  priority : Int
deriving DecidableEq, Repr

/-- Audit entry appended by register_task_execution (the timestamp and
the result payload are dropped from the model). -/
structure TaskEntry where
  task_id : String
  agent_type : String
  task_type : String
  complexity : Int
  phase : Phase
deriving DecidableEq, Repr

/-- Mutable state of a RulesEngine instance: current_phase, phase_history,
complexity_budget, current_complexity_used, phase_configs, agent_registry
(Dict[str, Set[str]] as an association list) and task_history. -/
structure RulesState where
  current_phase : Phase
  phase_history : List Phase
  complexity_budget : Int
  current_complexity_used : Int
  phase_configs : Phase → PhaseConfig
  agent_registry : List (String × List String)
  task_history : List TaskEntry

/-- The default phase configurations built by _load_phase_configs when no
override is given. -/
def defaultPhaseConfigs : Phase → PhaseConfig
  | .initialization =>
      { name := "Initialization",
        allowed_tasks := ["system_setup", "configuration", "validation"],
        completion_criteria := ["team_leader_operational", "subsystems_initialized"],
        max_complexity := 3, timeout_seconds := 300 }
  | .research =>
      { name := "Research Collection & Synthesis",
        allowed_tasks := ["research", "analysis", "knowledge_synthesis"],
        completion_criteria := ["research_completed", "findings_synthesized"],
        max_complexity := 8, timeout_seconds := 1800 }
  | .planning =>
      { name := "Plan",
        allowed_tasks := ["architecture", "design", "planning"],
        completion_criteria := ["implementation_plan_created", "architecture_approved"],
        max_complexity := 7, timeout_seconds := 1200 }
  | .context_preparation =>
      { name := "Context Preparation",
        allowed_tasks := ["context_assembly", "validation", "documentation"],
        completion_criteria := ["context_prepared", "validation_passed"],
        max_complexity := 5, timeout_seconds := 600 }
  | .validation =>
      { name := "Validate",
        allowed_tasks := ["validation", "risk_assessment", "scope_check"],
        completion_criteria := ["mock_risk_assessed", "scope_validated"],
        max_complexity := 6, timeout_seconds := 900 }
  | .implementation =>
      { name := "Implement",
        allowed_tasks := ["development", "coding", "implementation"],
        completion_criteria := ["functional_implementation", "no_mocks"],
        max_complexity := 10, timeout_seconds := 3600 }
  | .verification =>
      { name := "Verify",
        allowed_tasks := ["verification", "testing", "quality_check"],
        completion_criteria := ["independent_verification", "features_match_plan"],
        max_complexity := 8, timeout_seconds := 1800 }
  | .testing =>
      { name := "Test",
        allowed_tasks := ["testing", "qa", "integration_testing"],
        completion_criteria := ["comprehensive_testing", "no_mocks_detected"],
        max_complexity := 9, timeout_seconds := 2400 }
  | .user_value_validation =>
      { name := "User Value Validation",
        allowed_tasks := ["validation", "user_testing", "compliance_check"],
        completion_criteria := ["value_delivered", "technical_compliance"],
        max_complexity := 7, timeout_seconds := 1200 }
  | .documentation =>
      { name := "Document",
        allowed_tasks := ["documentation", "guides", "api_docs"],
        completion_criteria := ["documentation_created", "approved_features_only"],
        max_complexity := 5, timeout_seconds := 900 }
  | .preparation =>
      { name := "Prepare",
        allowed_tasks := ["preparation", "setup", "configuration"],
        completion_criteria := ["next_part_ready", "cleanup_completed"],
        max_complexity := 3, timeout_seconds := 300 }

/-- Initial RulesEngine state as built by __init__ with the given
complexity budget (rules_config.get with default 25 resolved by the
caller) and the default phase configurations. -/
def initState (budget : Int) : RulesState :=
  { current_phase := .initialization,
    phase_history := [],
    complexity_budget := budget,
    current_complexity_used := 0,
    phase_configs := defaultPhaseConfigs,
    agent_registry := [],
    task_history := [] }

/-- The reason carried by a ScopeViolationError raised by validate_scope,
identifying which of the four checks failed. -/
inductive ScopeViolation
  | taskTypeNotAllowed
  | budgetExceeded
  | phaseMaxExceeded
  | agentUnavailable
deriving DecidableEq, Repr

/-- Method _agent_available: the agent type must be a key of
agent_registry; any registered agent type counts as available. -/
def agent_available (s : RulesState) (agent_type : String) : Bool :=
  (s.agent_registry.lookup agent_type).isSome

/-- Method validate_scope: the four checks in source order (task type
allowed in the current phase, complexity budget, phase max complexity,
agent availability); raises ScopeViolationError on the first failing
check, returns True otherwise.  The method reads but never writes engine
state, so the state is threaded through unchanged. -/
def validate_scope (s : RulesState) (t : TaskSpec) :
    Except ScopeViolation Bool × RulesState :=
  if t.task_type ∉ (s.phase_configs s.current_phase).allowed_tasks then
    (.error .taskTypeNotAllowed, s)
  else if s.current_complexity_used + t.complexity > s.complexity_budget then
    (.error .budgetExceeded, s)
  else if t.complexity > (s.phase_configs s.current_phase).max_complexity then
    (.error .phaseMaxExceeded, s)
  else if ¬ agent_available s t.agent_type then
    (.error .agentUnavailable, s)
  else
    (.ok true, s)

/-- Method register_task_execution: unconditionally adds the task
complexity to current_complexity_used and appends an audit entry. -/
def register_task_execution (s : RulesState) (t : TaskSpec) : RulesState :=
  { s with
    current_complexity_used := s.current_complexity_used + t.complexity,
    task_history := s.task_history ++
      [{ task_id := t.task_id, agent_type := t.agent_type,
         task_type := t.task_type, complexity := t.complexity,
         phase := s.current_phase }] }

/-- One task under the discipline of the spec: the task is recorded by
register_task_execution exactly when validate_scope accepts it; a
rejected task leaves the engine untouched. -/
def run_task (s : RulesState) (t : TaskSpec) : RulesState :=
  match (validate_scope s t).1 with
  | .ok _ => register_task_execution s t
  | .error _ => s

/-- A finite sequence of tasks processed under the same discipline. -/
def run_tasks (s : RulesState) (ts : List TaskSpec) : RulesState :=
  ts.foldl run_task s

/-- Method _check_requirement: a stub that always reports the
requirement as met. -/
def check_requirement (_s : RulesState) (_requirement : String) : Bool :=
  true

/-- Method _get_next_phase: the successor of the current phase in
phaseOrder, none at the last phase. -/
def get_next_phase (current : Phase) : Option Phase :=
  let current_index := phaseOrder.indexOf current
  if current_index < phaseOrder.length - 1 then
    phaseOrder[current_index + 1]?
  else
    none

/-- Method can_progress_to_phase: the target must be exactly the
successor returned by _get_next_phase, and every completion criterion of
the current phase must pass _check_requirement. -/
def can_progress_to_phase (s : RulesState) (target : Phase) : Bool :=
  if some target ≠ get_next_phase s.current_phase then
    false
  else
    (s.phase_configs s.current_phase).completion_criteria.all
      (fun criterion => check_requirement s criterion)

/-- Method progress_to_phase: when permitted, appends the old current
phase to phase_history and sets current_phase to the target, returning
True; otherwise returns False without touching the state. -/
def progress_to_phase (s : RulesState) (target : Phase) : Bool × RulesState :=
  if can_progress_to_phase s target then
    (true,
     { s with
       phase_history := s.phase_history ++ [s.current_phase],
       current_phase := target })
  else
    (false, s)

end RulesEngine

namespace ContextManager

/-- Cached prompt entry (dataclass SystemPrompt); the file path, version,
metadata and timestamp fields are dropped from the model. -/
structure SystemPrompt where
  agent_type : String
  task_type : Option String
  content : String
  checksum : String
deriving DecidableEq, Repr

/-- The prompt_cache OrderedDict: an association list whose front is the
oldest (least recently used) binding and whose back is the newest. -/
abbrev Cache := List (String × SystemPrompt)

/-- The fixed cache capacity self.max_cache_size = 1000. -/
def max_cache_size : Nat := 1000

/-- Disk environment seen by load_prompt for a given (agent_type,
task_type) request: read returns the validated content of the resolved
prompt file (none models a missing file or failed validation, where the
Python raises and leaves the cache untouched), and checksum is
_calculate_checksum of that file (the empty string on a read error). -/
structure FileEnv where
  read : String → Option String → Option String
  checksum : String → Option String → String

/-- Method _get_cache_key on Lean strings. -/
def get_cache_key (agent_type : String) (task_type : Option String) : String :=
  match task_type with
  | some t => agent_type ++ ":" ++ t
  | none => agent_type

/-- Method _validate_checksum given the current checksum of the file:
false when the cached checksum is empty, otherwise an equality test. -/
def validate_checksum (current : String) (expected : String) : Bool :=
  if expected = "" then false else current = expected

/-- OrderedDict deletion del cache[key] (keys are unique in the dict, so
filtering every binding with the key is the same deletion). -/
def cacheErase (c : Cache) (key : String) : Cache :=
  c.filter (fun p => p.1 ≠ key)

/-- OrderedDict.move_to_end: relocate the binding of the key to the
newest end; no change when the key is absent. -/
def moveToEnd (c : Cache) (key : String) : Cache :=
  match c.find? (fun p => p.1 = key) with
  | some e => cacheErase c key ++ [e]
  | none => c

/-- The while loop of _update_cache: popitem(last=False) removes the
oldest binding until the cache is within the size bound. -/
def evictWhile (maxSize : Nat) : Cache → Cache
  | [] => []
  | e :: rest =>
      if (e :: rest).length ≤ maxSize then e :: rest
      else evictWhile maxSize rest

/-- Method _update_cache: delete any existing binding of the key, append
the new entry at the newest end, then evict oldest entries while the
cache exceeds max_cache_size. -/
def update_cache (c : Cache) (key : String) (v : SystemPrompt) : Cache :=
  evictWhile max_cache_size (cacheErase c key ++ [(key, v)])

/-- The cache-miss tail of load_prompt: read and validate the file,
compute its checksum, store the new SystemPrompt via _update_cache and
return the content; a read or validation failure raises and leaves the
cache unchanged. -/
def load_fresh (env : FileEnv) (c : Cache) (agent_type : String)
    (task_type : Option String) : Except Unit String × Cache :=
  match env.read agent_type task_type with
  | none => (.error (), c)
  | some content =>
      let key := get_cache_key agent_type task_type
      let chk := env.checksum agent_type task_type
      (.ok content,
       update_cache c key
         { agent_type := agent_type, task_type := task_type,
           content := content, checksum := chk })

/-- Method load_prompt: on a cache hit whose stored checksum still
matches the file (and no force_reload), return the cached content and
move the entry to the most recently used position; otherwise fall
through to the fresh-load path. -/
def load_prompt (env : FileEnv) (c : Cache) (agent_type : String)
    (task_type : Option String) (force_reload : Bool) :
    Except Unit String × Cache :=
  let key := get_cache_key agent_type task_type
  match if force_reload then none else c.find? (fun p => p.1 = key) with
  | some (_, cached) =>
      if validate_checksum (env.checksum agent_type task_type) cached.checksum then
        (.ok cached.content, moveToEnd c key)
      else
        load_fresh env c agent_type task_type
  | none => load_fresh env c agent_type task_type

/-- A finite sequence of load_prompt calls against a fixed disk
environment; each request gives agent type, optional task type and the
force_reload flag. -/
def run_loads (env : FileEnv) (c : Cache)
    (reqs : List (String × Option String × Bool)) : Cache :=
  reqs.foldl (fun cc r => (load_prompt env cc r.1 r.2.1 r.2.2).2) c

/-- Helper of splitOnChar: prepend a character to the first segment. -/
def consHead (c : Char) : List (List Char) → List (List Char)
  | [] => [[c]]
  | p :: ps => (c :: p) :: ps

/-- Python str.split(sep) on strings as character lists: always returns a
nonempty list of segments, with empty segments for adjacent separators
and at either end. -/
def splitOnChar (sep : Char) : List Char → List (List Char)
  | [] => [[]]
  | c :: cs =>
      if c = sep then [] :: splitOnChar sep cs
      else consHead c (splitOnChar sep cs)

/-- Method _get_cache_key on character lists (for the key-derivation
comparison): agent_type plus a colon plus the task type when present. -/
def getCacheKeyChars (agent_type : List Char) (task_type : Option (List Char)) :
    List Char :=
  match task_type with
  | some t => agent_type ++ ':' :: t
  | none => agent_type

/-- The filename stem that _get_prompt_file resolves for a request when
the primary file exists: agent_type underscore task_type, or plain
agent_type when no task type is given. -/
def promptStem (agent_type : List Char) (task_type : Option (List Char)) :
    List Char :=
  match task_type with
  | some t => agent_type ++ '_' :: t
  | none => agent_type

/-- Key derivation of the file-watcher reload path _reload_prompt_file
(shared verbatim with _load_all_prompts): split the filename stem on
underscores, take parts[0] as the agent type and parts[1] (when present)
as the task type, and build the cache key from those. -/
def reloadCacheKey (stem : List Char) : List Char :=
  let parts := splitOnChar '_' stem
  getCacheKeyChars (parts.headD []) parts[1]?

end ContextManager

namespace AgentRegistry

/-- Registered agent record as stored in self.agents (team_leader.py,
AgentRegistry.register_agent).  The load counter is kept once: the
source mirrors it between self.agent_load and the per-agent dict entry
current_load, always keeping the two equal.  Dict reads with defaults
(status, current_load, max_load with default 5, max_complexity with
default 10) are modelled by total fields holding the resolved values. -/
structure AgentRec where
  agent_type : String
  status : String
  current_load : Int
  max_load : Int
  max_complexity : Int
deriving DecidableEq, Repr

/-- The self.agents dict: an association list from agent id to record,
in registration order. -/
abbrev Registry := List (String × AgentRec)

/-- The candidate filter of get_best_agent: matching agent type, active
status, current load strictly below max load, and requested complexity
within the max complexity the agent declares. -/
def isCandidate (agent_type : String) (complexity : Int) (a : AgentRec) : Bool :=
  a.agent_type = agent_type && a.status = "active" &&
    a.current_load < a.max_load && complexity ≤ a.max_complexity

/-- Python min(candidates, key=current_load): scan the candidates and
keep the first one whose load is strictly smaller than the best so far,
so the first minimum in iteration order wins. -/
def minByLoad : List (String × AgentRec) → Option (String × AgentRec)
  | [] => none
  | x :: xs =>
      some (xs.foldl
        (fun best y =>
          if y.2.current_load < best.2.current_load then y else best) x)

/-- In-place mutation of the chosen agent record inside self.agents. -/
def setAgent (reg : Registry) (agent_id : String) (a : AgentRec) : Registry :=
  reg.map (fun p => if p.1 = agent_id then (agent_id, a) else p)

/-- Method get_best_agent: filter candidates (the task_type argument is
accepted but never used by the source), return none on an empty
candidate list, otherwise pick the least loaded candidate, increment its
load in the registry and return the updated record. -/
def get_best_agent (reg : Registry) (agent_type : String)
    (_task_type : String) (complexity : Int) :
    Option (String × AgentRec) × Registry :=
  match minByLoad (reg.filter (fun p => isCandidate agent_type complexity p.2)) with
  | none => (none, reg)
  | some (best_id, best) =>
      (some (best_id, { best with current_load := best.current_load + 1 }),
       setAgent reg best_id { best with current_load := best.current_load + 1 })

end AgentRegistry

namespace TeamLeader

open RulesEngine AgentRegistry

/-- Integer fields of the TaskMetrics dataclass.  The floating point
fields average_execution_time and success_rate are outside the model
(floats); no claim mentions them. -/
structure TLMetrics where
  total_tasks : Nat
  completed_tasks : Nat
  failed_tasks : Nat
  error_count : Nat
  complexity_budget_used : Int
deriving DecidableEq, Repr

/-- State of a TeamLeader relevant to delegation: the rules engine, the
metrics record and the configured complexity budget read by step 2 of
delegate_task from self.config.  Prompt loading, context assembly and
the active-task bookkeeping dict mutate no budget counter and are left
out of the state. -/
structure TLState where
  rules : RulesState
  metrics : TLMetrics
  config_budget : Int

/-- Outcome of steps 3 to 7 of a delegation, chosen by the environment:
the prompt/context steps succeed and the orchestrator call either
returns a result (whose _validate_result quality verdict is the boolean,
abstracting the float confidence threshold), finds no agent, sees the
agent raise, or times out. -/
inductive ExecOutcome
  | succeeds (resultOk : Bool)
  | agentUnavailable
  | raisesError
  | timesOut
deriving DecidableEq, Repr

/-- Truth of this predicate marks the delegation outcomes that reach the
except-clause of delegate_task: every outcome except a success that also
passes result-quality validation. -/
def ExecOutcome.isFailure : ExecOutcome → Bool
  | .succeeds resultOk => !resultOk
  | _ => true

/-- Reason a delegation fails.  The source wraps every failure in a
TaskExecutionError before re-raising; the constructor records which
step failed so theorems can speak about it. -/
inductive DelegateError
  | scopeViolation (v : ScopeViolation)
  | budgetExceeded
  | executionFailed
  | qualityRejected
deriving DecidableEq, Repr

/-- The except-clause of delegate_task: increment error_count and
failed_tasks, then re-raise. -/
def failDelegation (st : TLState) (e : DelegateError) :
    Except DelegateError Unit × TLState :=
  (.error e,
   { st with metrics :=
      { st.metrics with
        error_count := st.metrics.error_count + 1,
        failed_tasks := st.metrics.failed_tasks + 1 } })

/-- Method delegate_task on an initialized TeamLeader, steps in source
order: (1) rules_engine.validate_scope, (2) the budget check against
metrics.complexity_budget_used, (5) metrics.complexity_budget_used is
incremented before (6) the orchestrator call, (7) result-quality
validation and integer metric updates, (8)
rules_engine.register_task_execution only on full success.  Any raise is
routed through the except-clause; nothing ever decrements
complexity_budget_used. -/
def delegate_task (st : TLState) (spec : TaskSpec) (outcome : ExecOutcome) :
    Except DelegateError Unit × TLState :=
  match (validate_scope st.rules spec).1 with
  | .error v => failDelegation st (.scopeViolation v)
  | .ok _ =>
    if st.metrics.complexity_budget_used + spec.complexity > st.config_budget then
      failDelegation st .budgetExceeded
    else
      let st5 : TLState :=
        { st with metrics :=
           { st.metrics with complexity_budget_used :=
              st.metrics.complexity_budget_used + spec.complexity } }
      match outcome with
      | .agentUnavailable => failDelegation st5 .executionFailed
      | .raisesError => failDelegation st5 .executionFailed
      | .timesOut => failDelegation st5 .executionFailed
      | .succeeds resultOk =>
        if !resultOk then
          failDelegation st5 .qualityRejected
        else
          let st7 : TLState :=
            { st5 with metrics :=
               { st5.metrics with
                 total_tasks := st5.metrics.total_tasks + 1,
                 completed_tasks := st5.metrics.completed_tasks + 1 } }
          (.ok (),
           { st7 with rules := register_task_execution st7.rules spec })

/-- Repeated delegation of the same spec with the same outcome, keeping
only the state. -/
def iterate_delegations (st : TLState) (spec : TaskSpec)
    (outcome : ExecOutcome) : Nat → TLState
  | 0 => st
  | n + 1 => (delegate_task (iterate_delegations st spec outcome n) spec outcome).2

end TeamLeader

namespace TaskOrchestrator

/-- Task execution status (task_orchestrator.py, enum TaskStatus). -/
inductive TStatus
  | pending
  | delegated
  | in_progress
  | completed
  | failed
  | cancelled
  | timeout
deriving DecidableEq, Repr

/-- Membership in the terminal set named by the spec. -/
def TStatus.isTerminal : TStatus → Bool
  | .completed => true
  | .failed => true
  | .cancelled => true
  | .timeout => true
  | _ => false

/-- Behavior of the selected agent during the awaited call inside
_execute_with_agent: it returns, raises, or exceeds the wall-clock
timeout of asyncio.wait_for. -/
inductive AgentBehavior
  | completes (content : String)
  | raises (msg : String)
  | hangs
deriving DecidableEq, Repr

/-- Exception reaching the caller of execute_task or raised inside it:
the TimeoutError raised by _execute_with_agent, the agent exception
itself, the TaskExecutionError wrapper of the except-clause of
execute_task, and the AgentUnavailableError raised before its try block.
Each carries the str() of the Python exception. -/
inductive ExecFailure
  | timeoutError (msg : String)
  | agentError (msg : String)
  | taskExecutionError (msg : String)
  | agentUnavailable (msg : String)
deriving DecidableEq, Repr

/-- The str() of each modelled exception, used when the except-clause of
execute_task interpolates the caught exception into its wrapper
message. -/
def ExecFailure.message : ExecFailure → String
  | .timeoutError m => m
  | .agentError m => m
  | .taskExecutionError m => m
  | .agentUnavailable m => m

/-- Method _execute_with_agent: awaits the agent under
asyncio.wait_for(timeout); an asyncio.TimeoutError becomes the typed
TimeoutError with the timed-out-after message, any agent exception
propagates unchanged, a plain return is wrapped into a completed
result (modelled by its content). -/
def execute_with_agent (behavior : AgentBehavior) (timeout : Nat) :
    Except ExecFailure String :=
  match behavior with
  | .completes content => .ok content
  | .raises msg => .error (.agentError msg)
  | .hangs =>
      .error (.timeoutError
        ("Task execution timed out after " ++ Nat.repr timeout ++ " seconds"))

/-- Exception behavior of execute_task: when agent selection yields no
agent, AgentUnavailableError is raised before the try block and
propagates as such; inside the try block every exception, the inner
TimeoutError included, is caught by the except-clause and re-raised as
TaskExecutionError with the caught message interpolated. -/
def execute_task_result (agent : Option AgentBehavior) (timeout : Nat) :
    Except ExecFailure String :=
  match agent with
  | none =>
      .error (.agentUnavailable "No available agent for task type")
  | some behavior =>
      match execute_with_agent behavior timeout with
      | .ok content => .ok content
      | .error e =>
          .error (.taskExecutionError ("Task execution failed: " ++ e.message))

/-- Program counter of one execute_task coroutine over its suspension
points: created (the TaskExecution exists in active_tasks, agent not yet
done selecting or task not yet started), running (between
_start_task_execution and the return of the awaited agent call), and
finished (the coroutine returned or raised, or aborted on
AgentUnavailableError before its try block). -/
inductive CoPC
  | created
  | running
  | finished
deriving DecidableEq, Repr

/-- Orchestrator state shared through the single event loop: the status
and coroutine position of every task id ever dispatched, the
active_tasks map (as the list of its keys in insertion order; the
records themselves live in the status and pc maps) and the task_history
list of appended ids. -/
structure OrchState where
  status : Nat → Option TStatus
  pc : Nat → Option CoPC
  active : List Nat
  history : List Nat

/-- Initial orchestrator state: no tasks. -/
def orchInit : OrchState :=
  { status := fun _ => none, pc := fun _ => none, active := [], history := [] }

/-- Pointwise update of a task attribute map. -/
def upd {α : Type} (f : Nat → Option α) (tid : Nat) (v : Option α) :
    Nat → Option α :=
  fun x => if x = tid then v else f x

/-- Atomic steps of the orchestrator between suspension points of the
event loop.  createExec is _create_task_execution inside execute_task
(fresh id, status PENDING, inserted into active_tasks); startExec is
_start_task_execution (status IN_PROGRESS); abortNoAgent is the
AgentUnavailableError raise before the try block (the coroutine ends,
the record stays PENDING and stays in active_tasks because the finally
clause is not reached); finishOk is _complete_task_execution plus the
finally clause (status COMPLETED, appended to history, removed from
active_tasks when still present); finishErr is _fail_task_execution plus
the finally clause (status FAILED likewise); cancel is cancel_task;
sweep is one _check_timeouts pass given which active tasks are past
their deadline; shutdownAll is the loop in shutdown that sets every
active task to CANCELLED without moving it to history. -/
inductive OrchEvent
  | createExec (tid : Nat)
  | startExec (tid : Nat)
  | abortNoAgent (tid : Nat)
  | finishOk (tid : Nat)
  | finishErr (tid : Nat)
  | cancel (tid : Nat)
  | sweep (overdue : List Nat)
  | shutdownAll
deriving DecidableEq, Repr

/-- Handling of one timed-out task inside _check_timeouts:
_fail_task_execution (status FAILED, appended to history) followed by
deletion from active_tasks. -/
def sweepOne (s : OrchState) (tid : Nat) : OrchState :=
  { s with
    status := upd s.status tid (some .failed),
    history := s.history ++ [tid],
    active := s.active.erase tid }

/-- One atomic step.  Guards on the coroutine position reflect that each
execute_task coroutine runs its statements once and in order; an event
whose guard fails is a no-op (it does not occur in that state). -/
def step (s : OrchState) : OrchEvent → OrchState
  | .createExec tid =>
      if s.pc tid = none then
        { s with
          status := upd s.status tid (some .pending),
          pc := upd s.pc tid (some .created),
          active := s.active ++ [tid] }
      else s
  | .startExec tid =>
      if s.pc tid = some .created then
        { s with
          status := upd s.status tid (some .in_progress),
          pc := upd s.pc tid (some .running) }
      else s
  | .abortNoAgent tid =>
      if s.pc tid = some .created then
        { s with pc := upd s.pc tid (some .finished) }
      else s
  | .finishOk tid =>
      if s.pc tid = some .running then
        { s with
          status := upd s.status tid (some .completed),
          pc := upd s.pc tid (some .finished),
          history := s.history ++ [tid],
          active := s.active.erase tid }
      else s
  | .finishErr tid =>
      if s.pc tid = some .running then
        { s with
          status := upd s.status tid (some .failed),
          pc := upd s.pc tid (some .finished),
          history := s.history ++ [tid],
          active := s.active.erase tid }
      else s
  | .cancel tid =>
      if tid ∈ s.active then
        { s with
          status := upd s.status tid (some .cancelled),
          active := s.active.erase tid,
          history := s.history ++ [tid] }
      else s
  | .sweep overdue =>
      (s.active.filter
        (fun t => t ∈ overdue ∧ s.status t = some .in_progress)).foldl sweepOne s
  | .shutdownAll =>
      { s with
        status := fun t =>
          if t ∈ s.active then some .cancelled else s.status t }

/-- A finite interleaving of orchestrator steps. -/
def run (s : OrchState) (events : List OrchEvent) : OrchState :=
  events.foldl step s

end TaskOrchestrator

namespace RulesEngine

/-- The conjunction of the four checks of validate_scope, in source
order. -/
def scopeOk (s : RulesState) (t : TaskSpec) : Prop :=
  t.task_type ∈ (s.phase_configs s.current_phase).allowed_tasks ∧
  s.current_complexity_used + t.complexity ≤ s.complexity_budget ∧
  t.complexity ≤ (s.phase_configs s.current_phase).max_complexity ∧
  agent_available s t.agent_type = true

theorem validate_scope_snd (s : RulesState) (t : TaskSpec) :
    (validate_scope s t).2 = s := by
  unfold validate_scope
  split_ifs <;> rfl

theorem validate_scope_ok_iff (s : RulesState) (t : TaskSpec) :
    (validate_scope s t).1 = .ok true ↔ scopeOk s t := by
  unfold validate_scope scopeOk
  split_ifs with h1 h2 h3 h4
  · simp only [false_iff]
    rintro ⟨-, hb, -⟩
    omega
  · simp only [false_iff]
    rintro ⟨-, -, hc, -⟩
    omega
  · exact ⟨fun _ => ⟨h1, by omega, by omega, h4⟩, fun _ => rfl⟩
  · simp only [false_iff]
    rintro ⟨-, -, -, ha⟩
    exact h4 ha
  · simp only [false_iff]
    rintro ⟨hmem, -⟩
    exact h1 hmem

theorem validate_scope_cases (s : RulesState) (t : TaskSpec) :
    (validate_scope s t).1 = .ok true ∨ ∃ e, (validate_scope s t).1 = .error e := by
  unfold validate_scope
  split_ifs <;> simp

theorem validate_scope_error_iff (s : RulesState) (t : TaskSpec) :
    (∃ e, (validate_scope s t).1 = .error e) ↔ ¬ scopeOk s t := by
  constructor
  · rintro ⟨e, he⟩ hok
    rw [← validate_scope_ok_iff] at hok
    rw [hok] at he
    exact Except.noConfusion he
  · intro hnot
    rcases validate_scope_cases s t with h | h
    · exact absurd ((validate_scope_ok_iff s t).mp h) hnot
    · exact h

theorem run_task_complexity_budget (s : RulesState) (t : TaskSpec) :
    (run_task s t).complexity_budget = s.complexity_budget := by
  unfold run_task
  rcases validate_scope_cases s t with h | ⟨e, h⟩
  · rw [h]
    rfl
  · rw [h]

theorem run_task_used_le (s : RulesState) (t : TaskSpec)
    (h : s.current_complexity_used ≤ s.complexity_budget) :
    (run_task s t).current_complexity_used ≤ (run_task s t).complexity_budget := by
  unfold run_task
  rcases validate_scope_cases s t with hv | ⟨e, hv⟩ <;> rw [hv]
  · have := (validate_scope_ok_iff s t).mp hv
    simp [register_task_execution]
    exact this.2.1
  · exact h

theorem run_tasks_used_le (ts : List TaskSpec) (s : RulesState)
    (h : s.current_complexity_used ≤ s.complexity_budget) :
    (run_tasks s ts).current_complexity_used ≤ (run_tasks s ts).complexity_budget := by
  induction ts generalizing s with
  | nil => exact h
  | cons t ts ih =>
    exact ih (run_task s t) (run_task_used_le s t h)

theorem run_tasks_budget (ts : List TaskSpec) (s : RulesState) :
    (run_tasks s ts).complexity_budget = s.complexity_budget := by
  induction ts generalizing s with
  | nil => rfl
  | cons t ts ih =>
    rw [run_tasks, List.foldl_cons, ← run_tasks, ih, run_task_complexity_budget]

end RulesEngine

/-- C1: under the discipline that every task is first accepted by
validate_scope and only then recorded by register_task_execution,
current_complexity_used never exceeds complexity_budget after any finite
sequence of tasks (starting from any state within budget, in particular
the initial state with zero used), and a task whose complexity would
push the cumulative total over the budget is rejected by validate_scope
with a ScopeViolationError and leaves the engine state completely
unchanged, rather than being partially counted. -/
theorem C1_budget_never_exceeded (s : RulesEngine.RulesState)
    (ts : List RulesEngine.TaskSpec)
    (h : s.current_complexity_used ≤ s.complexity_budget) :
    (RulesEngine.run_tasks s ts).current_complexity_used ≤
        (RulesEngine.run_tasks s ts).complexity_budget
    ∧ (RulesEngine.run_tasks s ts).complexity_budget = s.complexity_budget
    ∧ ∀ t : RulesEngine.TaskSpec,
        s.current_complexity_used + t.complexity > s.complexity_budget →
        (∃ e, (RulesEngine.validate_scope s t).1 = .error e) ∧
          RulesEngine.run_task s t = s := by
  refine ⟨RulesEngine.run_tasks_used_le ts s h, RulesEngine.run_tasks_budget ts s, ?_⟩
  intro t hover
  have hnot : ¬ RulesEngine.scopeOk s t := by
    intro hok
    exact absurd hok.2.1 (by omega)
  have herr := (RulesEngine.validate_scope_error_iff s t).mpr hnot
  refine ⟨herr, ?_⟩
  unfold RulesEngine.run_task
  obtain ⟨e, he⟩ := herr
  rw [he]

/-- Witness for C1 at a concrete input: the initial rules engine with the
default budget 25 and one registered agent runs three complexity-3
validation tasks; every hypothesis holds there and the theorem applies. -/
theorem C1_budget_never_exceeded_witness :
    (({ RulesEngine.initState 25 with
        agent_registry := [("research", [])] } : RulesEngine.RulesState).current_complexity_used ≤
      ({ RulesEngine.initState 25 with
         agent_registry := [("research", [])] } : RulesEngine.RulesState).complexity_budget)
    ∧ (RulesEngine.run_tasks
        { RulesEngine.initState 25 with agent_registry := [("research", [])] }
        [⟨"t1", "research", "validation", "x", 3, 5⟩,
         ⟨"t2", "research", "validation", "x", 3, 5⟩,
         ⟨"t3", "research", "validation", "x", 3, 5⟩]).current_complexity_used ≤
      (RulesEngine.run_tasks
        { RulesEngine.initState 25 with agent_registry := [("research", [])] }
        [⟨"t1", "research", "validation", "x", 3, 5⟩,
         ⟨"t2", "research", "validation", "x", 3, 5⟩,
         ⟨"t3", "research", "validation", "x", 3, 5⟩]).complexity_budget := by
  refine ⟨by decide, ?_⟩
  exact (C1_budget_never_exceeded _ _ (by decide)).1

/-- C2: validate_scope raises a ScopeViolationError exactly when one of
the four checks fails (task_type outside the allowed set of the current
phase, used complexity plus task complexity above the global budget,
task complexity above the phase max_complexity, or unregistered
agent_type), returns True exactly when all four hold, and in both cases
leaves the engine state unchanged. -/
theorem C2_validate_scope_complete (s : RulesEngine.RulesState)
    (t : RulesEngine.TaskSpec) :
    (RulesEngine.validate_scope s t).2 = s
    ∧ ((RulesEngine.validate_scope s t).1 = .ok true ↔
        (t.task_type ∈ (s.phase_configs s.current_phase).allowed_tasks ∧
         s.current_complexity_used + t.complexity ≤ s.complexity_budget ∧
         t.complexity ≤ (s.phase_configs s.current_phase).max_complexity ∧
         RulesEngine.agent_available s t.agent_type = true))
    ∧ ((∃ e, (RulesEngine.validate_scope s t).1 = .error e) ↔
        ¬ (t.task_type ∈ (s.phase_configs s.current_phase).allowed_tasks ∧
           s.current_complexity_used + t.complexity ≤ s.complexity_budget ∧
           t.complexity ≤ (s.phase_configs s.current_phase).max_complexity ∧
           RulesEngine.agent_available s t.agent_type = true)) :=
  ⟨RulesEngine.validate_scope_snd s t,
   RulesEngine.validate_scope_ok_iff s t,
   RulesEngine.validate_scope_error_iff s t⟩

namespace RulesEngine

/-- Successor table for the eleven phases, written out from the declared
phase order; used to compare _get_next_phase against the immediate
successor the spec describes. -/
def nextPhaseTable : Phase → Option Phase
  | .initialization => some .research
  | .research => some .planning
  | .planning => some .context_preparation
  | .context_preparation => some .validation
  | .validation => some .implementation
  | .implementation => some .verification
  | .verification => some .testing
  | .testing => some .user_value_validation
  | .user_value_validation => some .documentation
  | .documentation => some .preparation
  | .preparation => none

theorem get_next_phase_eq_table (p : Phase) :
    get_next_phase p = nextPhaseTable p := by
  cases p <;> rfl

theorem can_progress_iff (s : RulesState) (target : Phase) :
    can_progress_to_phase s target = true ↔
      get_next_phase s.current_phase = some target := by
  unfold can_progress_to_phase
  split_ifs with h
  · simp only [Bool.false_eq_true, false_iff]
    intro he
    exact h he.symm
  · simp only [List.all_eq_true, check_requirement, true_iff]
    constructor
    · intro _
      exact (not_ne_iff.mp h).symm
    · intro _ _ _
      trivial

end RulesEngine

/-- C6: progress_to_phase returns True exactly when the target is the
immediate successor of the current phase in the phase order (completion
criteria are checked by a stub that always passes); in that case it
appends the old current phase to phase_history and sets current_phase to
the target, and for every other target, skips backwards or forwards
included, it returns False and leaves the state unchanged. -/
theorem C6_progress_to_phase_exact (s : RulesEngine.RulesState)
    (target : RulesEngine.Phase) :
    ((RulesEngine.progress_to_phase s target).1 = true ↔
       RulesEngine.get_next_phase s.current_phase = some target)
    ∧ (RulesEngine.get_next_phase s.current_phase =
         RulesEngine.nextPhaseTable s.current_phase)
    ∧ ((RulesEngine.progress_to_phase s target).1 = true →
        (RulesEngine.progress_to_phase s target).2 =
          { s with
            phase_history := s.phase_history ++ [s.current_phase],
            current_phase := target })
    ∧ ((RulesEngine.progress_to_phase s target).1 = false →
        (RulesEngine.progress_to_phase s target).2 = s) := by
  unfold RulesEngine.progress_to_phase
  split_ifs with h
  · refine ⟨?_, RulesEngine.get_next_phase_eq_table _, ?_, ?_⟩
    · simp only [true_iff]
      exact (RulesEngine.can_progress_iff s target).mp h
    · intro _
      rfl
    · intro hfalse
      exact absurd hfalse (by simp)
  · refine ⟨?_, RulesEngine.get_next_phase_eq_table _, ?_, ?_⟩
    · simp only [Bool.false_eq_true, false_iff]
      intro hnext
      exact h ((RulesEngine.can_progress_iff s target).mpr hnext)
    · intro htrue
      exact absurd htrue (by simp)
    · intro _
      rfl

namespace ContextManager

theorem evictWhile_length_le (maxSize : Nat) (c : Cache) :
    (evictWhile maxSize c).length ≤ maxSize := by
  induction c with
  | nil => simp [evictWhile]
  | cons e rest ih =>
    unfold evictWhile
    split_ifs with h
    · exact h
    · exact ih

theorem evictWhile_of_le (maxSize : Nat) (c : Cache)
    (h : c.length ≤ maxSize) : evictWhile maxSize c = c := by
  cases c with
  | nil => rfl
  | cons e rest =>
    unfold evictWhile
    rw [if_pos h]

theorem update_cache_length_le (c : Cache) (key : String) (v : SystemPrompt) :
    (update_cache c key v).length ≤ max_cache_size :=
  evictWhile_length_le max_cache_size _

theorem cacheErase_length_lt (c : Cache) (key : String) (e : String × SystemPrompt)
    (h : c.find? (fun p => p.1 = key) = some e) :
    (cacheErase c key).length < c.length := by
  have hmem : e ∈ c := List.mem_of_find?_eq_some h
  have hkey : e.1 = key := by
    have := List.find?_some h
    simpa using this
  rw [cacheErase]
  refine List.length_filter_lt_length_iff_exists.mpr ⟨e, hmem, ?_⟩
  simp [hkey]

theorem moveToEnd_length_le (c : Cache) (key : String) :
    (moveToEnd c key).length ≤ c.length := by
  unfold moveToEnd
  cases h : c.find? (fun p => p.1 = key) with
  | none => exact le_rfl
  | some e =>
    have := cacheErase_length_lt c key e h
    simp only [List.length_append, List.length_cons, List.length_nil]
    omega

theorem load_fresh_length_le (env : FileEnv) (c : Cache) (a : String)
    (t : Option String) (h : c.length ≤ max_cache_size) :
    ((load_fresh env c a t).2).length ≤ max_cache_size := by
  unfold load_fresh
  cases env.read a t with
  | none => exact h
  | some content => exact update_cache_length_le _ _ _

theorem load_prompt_length_le (env : FileEnv) (c : Cache) (a : String)
    (t : Option String) (f : Bool) (h : c.length ≤ max_cache_size) :
    ((load_prompt env c a t f).2).length ≤ max_cache_size := by
  simp only [load_prompt]
  split
  · split_ifs with hchk
    · exact le_trans (moveToEnd_length_le c _) h
    · exact load_fresh_length_le env c a t h
  · exact load_fresh_length_le env c a t h

theorem run_loads_length_le (env : FileEnv) (reqs : List (String × Option String × Bool))
    (c : Cache) (h : c.length ≤ max_cache_size) :
    (run_loads env c reqs).length ≤ max_cache_size := by
  induction reqs generalizing c with
  | nil => exact h
  | cons r rs ih =>
    exact ih _ (load_prompt_length_le env c r.1 r.2.1 r.2.2 h)

theorem cacheErase_of_fresh (c : Cache) (key : String)
    (h : ∀ p ∈ c, p.1 ≠ key) : cacheErase c key = c := by
  rw [cacheErase]
  refine List.filter_eq_self.mpr ?_
  intro p hp
  simpa using h p hp

theorem find?_eq_none_of_fresh (c : Cache) (key : String)
    (h : ∀ p ∈ c, p.1 ≠ key) :
    c.find? (fun p => p.1 = key) = none := by
  refine List.find?_eq_none.mpr ?_
  intro p hp
  simpa using h p hp

theorem evictWhile_full (maxSize : Nat) (c : Cache) (x : String × SystemPrompt)
    (hm : 0 < maxSize) (h : c.length = maxSize) :
    evictWhile maxSize (c ++ [x]) = c.tail ++ [x] := by
  cases c with
  | nil =>
    simp at h
    omega
  | cons e rest =>
    rw [List.cons_append]
    unfold evictWhile
    rw [if_neg (by simp_all)]
    rw [evictWhile_of_le]
    · rfl
    · simp at h ⊢
      omega

end ContextManager

/-- C7: the prompt cache never holds more than 1000 entries after any
sequence of load_prompt calls starting within capacity; when a fresh key
is inserted into a full cache the evicted entry is exactly the front of
the ordered cache, the least recently used one; and a cache hit with a
matching checksum returns the cached content after moving the hit entry
to the most recently used end. -/
theorem C7_lru_cache_bound (env : ContextManager.FileEnv)
    (c : ContextManager.Cache) (a : String) (t : Option String) (f : Bool)
    (reqs : List (String × Option String × Bool)) :
    ContextManager.max_cache_size = 1000
    ∧ (c.length ≤ ContextManager.max_cache_size →
        (ContextManager.run_loads env c reqs).length ≤ ContextManager.max_cache_size)
    ∧ ((∀ p ∈ c, p.1 ≠ ContextManager.get_cache_key a t) →
        c.length = ContextManager.max_cache_size →
        ∀ content, env.read a t = some content →
        (ContextManager.load_prompt env c a t f).2 =
          c.tail ++ [(ContextManager.get_cache_key a t,
            { agent_type := a, task_type := t, content := content,
              checksum := env.checksum a t })])
    ∧ (∀ k cached,
        c.find? (fun p => p.1 = ContextManager.get_cache_key a t) = some (k, cached) →
        ContextManager.validate_checksum (env.checksum a t) cached.checksum = true →
        ContextManager.load_prompt env c a t false =
          (.ok cached.content,
           ContextManager.cacheErase c (ContextManager.get_cache_key a t) ++
             [(k, cached)])) := by
  refine ⟨rfl, ContextManager.run_loads_length_le env reqs c, ?_, ?_⟩
  · intro hfresh hlen content hread
    have hnone := ContextManager.find?_eq_none_of_fresh c _ hfresh
    have hbranch :
        (if f then none else c.find? (fun p => p.1 = ContextManager.get_cache_key a t)) =
          (none : Option (String × ContextManager.SystemPrompt)) := by
      cases f
      · simpa using hnone
      · rfl
    simp only [ContextManager.load_prompt, hbranch]
    simp only [ContextManager.load_fresh, hread]
    simp only [ContextManager.update_cache,
      ContextManager.cacheErase_of_fresh c _ hfresh]
    exact ContextManager.evictWhile_full _ c _ (by decide) hlen
  · intro k cached hfind hchk
    simp only [ContextManager.load_prompt, Bool.false_eq_true, if_false, hfind, hchk,
      if_true, ContextManager.moveToEnd]

/-- Disk environment for the C7 witness: every request resolves to the
same short content with checksum sum. -/
def witnessEnv : ContextManager.FileEnv :=
  { read := fun _ _ => some "content", checksum := fun _ _ => "sum" }

/-- A full cache of 1000 entries for the C7 witness. -/
def witnessFull : ContextManager.Cache :=
  List.replicate 1000 ("k", ⟨"k", none, "c", "s"⟩)

/-- A one-entry cache whose stored checksum matches the disk for the C7
witness. -/
def witnessHit : ContextManager.Cache :=
  [("agent", ⟨"agent", none, "text", "sum"⟩)]

/-- Witness for C7: the capacity bound applied to an empty cache, the
LRU eviction applied to a full 1000-entry cache receiving a fresh key,
and the hit path applied to a matching one-entry cache. -/
theorem C7_lru_cache_bound_witness :
    (ContextManager.run_loads witnessEnv [] [("agent", none, false)]).length ≤
        ContextManager.max_cache_size
    ∧ (ContextManager.load_prompt witnessEnv witnessFull "research" none false).2 =
        witnessFull.tail ++
          [("research", ⟨"research", none, "content", "sum"⟩)]
    ∧ ContextManager.load_prompt witnessEnv witnessHit "agent" none false =
        (.ok "text",
         ContextManager.cacheErase witnessHit "agent" ++
           [("agent", ⟨"agent", none, "text", "sum"⟩)]) := by
  refine ⟨?_, ?_, ?_⟩
  · exact (C7_lru_cache_bound witnessEnv [] "agent" none false
      [("agent", none, false)]).2.1 (by decide)
  · refine (C7_lru_cache_bound witnessEnv witnessFull "research" none false []).2.2.1
      ?_ ?_ "content" rfl
    · intro p hp
      unfold witnessFull at hp
      rw [List.eq_of_mem_replicate hp]
      decide
    · unfold witnessFull
      rw [List.length_replicate]
      rfl
  · exact (C7_lru_cache_bound witnessEnv witnessHit "agent" none false []).2.2.2
      "agent" ⟨"agent", none, "text", "sum"⟩ (by decide) (by decide)

namespace ContextManager

theorem splitOnChar_of_not_mem (sep : Char) (l : List Char) (h : sep ∉ l) :
    splitOnChar sep l = [l] := by
  induction l with
  | nil => rfl
  | cons c cs ih =>
    have hc : ¬ c = sep := by
      intro hcs
      exact h (hcs ▸ List.mem_cons_self c cs)
    have hcs : sep ∉ cs := fun hm => h (List.mem_cons_of_mem c hm)
    simp only [splitOnChar]
    rw [if_neg hc, ih hcs]
    rfl

theorem splitOnChar_append (sep : Char) (a t : List Char) (h : sep ∉ a) :
    splitOnChar sep (a ++ sep :: t) = a :: splitOnChar sep t := by
  induction a with
  | nil => simp [splitOnChar]
  | cons c cs ih =>
    have hc : ¬ c = sep := by
      intro hcs
      exact h (hcs ▸ List.mem_cons_self c cs)
    have hcs : sep ∉ cs := fun hm => h (List.mem_cons_of_mem c hm)
    rw [List.cons_append]
    simp only [splitOnChar]
    rw [if_neg hc, ih hcs]
    rfl

end ContextManager

/-- C5 counterexample: for the default prompt file research_agent.md,
resolved by load_prompt for agent_type research_agent with no task type,
the file-watcher reload path splits the stem on underscores and derives
the cache key research:agent, which differs from the key research_agent
that load_prompt uses, so the claimed key agreement fails. -/
theorem C5_cache_key_disagreement :
    ContextManager.reloadCacheKey
        (ContextManager.promptStem "research_agent".toList none) ≠
      ContextManager.getCacheKeyChars "research_agent".toList none := by
  decide

namespace ContextManager

theorem consHead_ne_nil (c : Char) (l : List (List Char)) : consHead c l ≠ [] := by
  cases l <;> simp [consHead]

theorem splitOnChar_ne_nil (sep : Char) (l : List Char) :
    splitOnChar sep l ≠ [] := by
  cases l with
  | nil => simp [splitOnChar]
  | cons c cs =>
    simp only [splitOnChar]
    split_ifs
    · simp
    · exact consHead_ne_nil c _

theorem exists_first_sep (sep : Char) (l : List Char) (h : sep ∈ l) :
    ∃ p0 rest, l = p0 ++ sep :: rest ∧ sep ∉ p0 := by
  induction l with
  | nil => exact absurd h (List.not_mem_nil sep)
  | cons c cs ih =>
    by_cases hc : c = sep
    · subst hc
      exact ⟨[], cs, rfl, by simp⟩
    · have hmem : sep ∈ cs := by
        rcases List.mem_cons.mp h with h1 | h1
        · exact absurd h1.symm hc
        · exact h1
      obtain ⟨p0, rest, heq, hnot⟩ := ih hmem
      refine ⟨c :: p0, rest, by rw [List.cons_append, heq], ?_⟩
      intro hm
      rcases List.mem_cons.mp hm with h1 | h1
      · exact hc h1.symm
      · exact hnot h1

theorem reloadCacheKey_of_first_sep (stem p0 rest : List Char)
    (h : stem = p0 ++ '_' :: rest) (hp : '_' ∉ p0) :
    ∃ s1 ps, splitOnChar '_' rest = s1 :: ps ∧
      reloadCacheKey stem = p0 ++ ':' :: s1 := by
  cases hs : splitOnChar '_' rest with
  | nil => exact absurd hs (splitOnChar_ne_nil '_' rest)
  | cons s1 ps =>
    refine ⟨s1, ps, rfl, ?_⟩
    simp only [reloadCacheKey, h]
    rw [splitOnChar_append '_' p0 rest hp, hs]
    simp [getCacheKeyChars]

end ContextManager

/-- C5 amended: the watcher-derived key and the load_prompt key coincide
exactly on requests without underscores — for an agent type free of
underscores the keys agree when no task type is given, and also when a
task type free of underscores is given and its dedicated
agent_task file is the one resolved — while any underscore in the agent
type (every default prompt, such as research_agent.md) or in the task
type of a task-specific request makes the two paths derive different
cache keys: the watcher truncates at the first underscore of the stem,
the load path does not. -/
theorem C5_cache_key_agreement_amended (a t : List Char) :
    ('_' ∉ a →
      ContextManager.reloadCacheKey (ContextManager.promptStem a none) =
        ContextManager.getCacheKeyChars a none)
    ∧ ('_' ∉ a → '_' ∉ t →
      ContextManager.reloadCacheKey (ContextManager.promptStem a (some t)) =
        ContextManager.getCacheKeyChars a (some t))
    ∧ ('_' ∈ a →
      ContextManager.reloadCacheKey (ContextManager.promptStem a none) ≠
        ContextManager.getCacheKeyChars a none)
    ∧ ('_' ∈ a →
      ContextManager.reloadCacheKey (ContextManager.promptStem a (some t)) ≠
        ContextManager.getCacheKeyChars a (some t))
    ∧ ('_' ∉ a → '_' ∈ t →
      ContextManager.reloadCacheKey (ContextManager.promptStem a (some t)) ≠
        ContextManager.getCacheKeyChars a (some t)) := by
  refine ⟨?_, ?_, ?_, ?_, ?_⟩
  · intro ha
    unfold ContextManager.reloadCacheKey ContextManager.promptStem
    rw [ContextManager.splitOnChar_of_not_mem '_' a ha]
    rfl
  · intro ha ht
    unfold ContextManager.reloadCacheKey ContextManager.promptStem
    rw [ContextManager.splitOnChar_append '_' a t ha,
        ContextManager.splitOnChar_of_not_mem '_' t ht]
    rfl
  · intro hu heq
    obtain ⟨p0, rest, ha, hp⟩ := ContextManager.exists_first_sep '_' a hu
    obtain ⟨s1, ps, hs, hkey⟩ :=
      ContextManager.reloadCacheKey_of_first_sep
        (ContextManager.promptStem a none) p0 rest ha hp
    have hload : ContextManager.getCacheKeyChars a none = p0 ++ '_' :: rest := ha
    rw [hkey, hload] at heq
    have h2 := List.append_cancel_left heq
    injection h2 with h3 h4
    exact absurd h3 (by decide)
  · intro hu heq
    obtain ⟨p0, rest, ha, hp⟩ := ContextManager.exists_first_sep '_' a hu
    have hstem : ContextManager.promptStem a (some t) =
        p0 ++ '_' :: (rest ++ '_' :: t) := by
      show a ++ '_' :: t = _
      rw [ha, List.append_assoc, List.cons_append]
    obtain ⟨s1, ps, hs, hkey⟩ :=
      ContextManager.reloadCacheKey_of_first_sep
        (ContextManager.promptStem a (some t)) p0 (rest ++ '_' :: t) hstem hp
    have hload : ContextManager.getCacheKeyChars a (some t) =
        p0 ++ '_' :: (rest ++ ':' :: t) := by
      show a ++ ':' :: t = _
      rw [ha, List.append_assoc, List.cons_append]
    rw [hkey, hload] at heq
    have h2 := List.append_cancel_left heq
    injection h2 with h3 h4
    exact absurd h3 (by decide)
  · intro ha hut heq
    obtain ⟨t0, trest, ht, hpt⟩ := ContextManager.exists_first_sep '_' t hut
    have hkey : ContextManager.reloadCacheKey
        (ContextManager.promptStem a (some t)) = a ++ ':' :: t0 := by
      simp only [ContextManager.reloadCacheKey, ContextManager.promptStem]
      rw [ContextManager.splitOnChar_append '_' a t ha, ht,
          ContextManager.splitOnChar_append '_' t0 trest hpt]
      simp [ContextManager.getCacheKeyChars]
    have hload : ContextManager.getCacheKeyChars a (some t) = a ++ ':' :: t := rfl
    rw [hkey, hload] at heq
    have h2 := List.append_cancel_left heq
    injection h2 with h3 h4
    rw [ht] at h4
    have h5 := congrArg List.length h4
    simp only [List.length_append, List.length_cons] at h5
    omega

/-- Witness for the amended C5: the keys agree at the underscore-free
request research with task type analysis, and disagree at the default
prompt research_agent with no task type. -/
theorem C5_cache_key_agreement_amended_witness :
    ('_' ∉ "research".toList) ∧ ('_' ∉ "analysis".toList) ∧
    ('_' ∈ "research_agent".toList) ∧
    ContextManager.reloadCacheKey
        (ContextManager.promptStem "research".toList (some "analysis".toList)) =
      ContextManager.getCacheKeyChars "research".toList (some "analysis".toList) ∧
    ContextManager.reloadCacheKey
        (ContextManager.promptStem "research_agent".toList none) ≠
      ContextManager.getCacheKeyChars "research_agent".toList none :=
  ⟨by decide, by decide, by decide,
   (C5_cache_key_agreement_amended "research".toList "analysis".toList).2.1
     (by decide) (by decide),
   (C5_cache_key_agreement_amended "research_agent".toList []).2.2.1 (by decide)⟩


namespace AgentRegistry

/-- The scan step of the Python min over candidates. -/
def minStep (best y : String × AgentRec) : String × AgentRec :=
  if y.2.current_load < best.2.current_load then y else best

theorem minByLoad_eq_foldl (x : String × AgentRec) (xs : List (String × AgentRec)) :
    minByLoad (x :: xs) = some (xs.foldl minStep x) := by
  rfl

theorem minByLoad_eq_none_iff (l : List (String × AgentRec)) :
    minByLoad l = none ↔ l = [] := by
  cases l with
  | nil => simp [minByLoad]
  | cons x xs => simp [minByLoad]

theorem foldl_minStep_mem (xs : List (String × AgentRec)) (x : String × AgentRec) :
    xs.foldl minStep x ∈ x :: xs := by
  induction xs generalizing x with
  | nil => simp
  | cons y ys ih =>
    rw [List.foldl_cons]
    have h := ih (minStep x y)
    rcases List.mem_cons.mp h with h1 | h1
    · rw [h1]
      unfold minStep
      split_ifs
      · simp
      · simp
    · simp [h1]

theorem foldl_minStep_le (xs : List (String × AgentRec)) (x z : String × AgentRec)
    (hz : z ∈ x :: xs) :
    (xs.foldl minStep x).2.current_load ≤ z.2.current_load := by
  induction xs generalizing x z with
  | nil =>
    simp at hz
    rw [hz]
    simp
  | cons y ys ih =>
    rw [List.foldl_cons]
    have hstep_le_x : (minStep x y).2.current_load ≤ x.2.current_load := by
      unfold minStep
      split_ifs with h
      · omega
      · exact le_rfl
    have hstep_le_y : (minStep x y).2.current_load ≤ y.2.current_load := by
      unfold minStep
      split_ifs with h
      · exact le_rfl
      · omega
    have hmin : (ys.foldl minStep (minStep x y)).2.current_load ≤
        (minStep x y).2.current_load :=
      ih (minStep x y) (minStep x y) (List.mem_cons_self _ _)
    rcases List.mem_cons.mp hz with h1 | h1
    · rw [h1]
      exact le_trans hmin hstep_le_x
    · rcases List.mem_cons.mp h1 with h2 | h2
      · rw [h2]
        exact le_trans hmin hstep_le_y
      · exact ih (minStep x y) z (List.mem_cons_of_mem _ h2)

theorem isCandidate_iff (agent_type : String) (complexity : Int) (a : AgentRec) :
    isCandidate agent_type complexity a = true ↔
      (a.agent_type = agent_type ∧ a.status = "active" ∧
       a.current_load < a.max_load ∧ complexity ≤ a.max_complexity) := by
  unfold isCandidate
  simp [Bool.and_eq_true, decide_eq_true_iff, and_assoc]

end AgentRegistry

/-- C8: get_best_agent returns none and leaves every load untouched
exactly when no registered agent matches the type with active status,
spare load capacity and sufficient max complexity; otherwise it returns
a qualifying agent of minimal current load among the candidates, with
its load incremented by one both in the returned record and in the
registry. -/
theorem C8_get_best_agent_selection (reg : AgentRegistry.Registry)
    (agent_type task_type : String) (complexity : Int) :
    ((AgentRegistry.get_best_agent reg agent_type task_type complexity).1 = none ↔
       reg.filter (fun p => AgentRegistry.isCandidate agent_type complexity p.2) = [])
    ∧ ((AgentRegistry.get_best_agent reg agent_type task_type complexity).1 = none →
        (AgentRegistry.get_best_agent reg agent_type task_type complexity).2 = reg)
    ∧ (∀ best_id a,
        (AgentRegistry.get_best_agent reg agent_type task_type complexity).1 =
          some (best_id, a) →
        ∃ a0 : AgentRegistry.AgentRec,
          (best_id, a0) ∈ reg ∧
          a0.agent_type = agent_type ∧ a0.status = "active" ∧
          a0.current_load < a0.max_load ∧ complexity ≤ a0.max_complexity ∧
          a = { a0 with current_load := a0.current_load + 1 } ∧
          (∀ p ∈ reg.filter
              (fun p => AgentRegistry.isCandidate agent_type complexity p.2),
            a0.current_load ≤ p.2.current_load) ∧
          (AgentRegistry.get_best_agent reg agent_type task_type complexity).2 =
            AgentRegistry.setAgent reg best_id a) := by
  unfold AgentRegistry.get_best_agent
  cases hmin : AgentRegistry.minByLoad
      (reg.filter (fun p => AgentRegistry.isCandidate agent_type complexity p.2)) with
  | none =>
    refine ⟨?_, fun _ => rfl, ?_⟩
    · simp only [true_iff]
      exact (AgentRegistry.minByLoad_eq_none_iff _).mp hmin
    · intro best_id a h
      exact absurd h (by simp)
  | some best =>
    obtain ⟨bid, b0⟩ := best
    have hcands :
        ∃ x xs, reg.filter (fun p => AgentRegistry.isCandidate agent_type complexity p.2) =
          x :: xs := by
      cases hc : reg.filter (fun p => AgentRegistry.isCandidate agent_type complexity p.2) with
      | nil =>
        rw [hc] at hmin
        exact absurd hmin (by simp [AgentRegistry.minByLoad])
      | cons x xs => exact ⟨x, xs, rfl⟩
    obtain ⟨x, xs, hc⟩ := hcands
    have heq : xs.foldl AgentRegistry.minStep x = (bid, b0) := by
      rw [hc, AgentRegistry.minByLoad_eq_foldl] at hmin
      simpa using hmin
    have hmem : (bid, b0) ∈
        reg.filter (fun p => AgentRegistry.isCandidate agent_type complexity p.2) := by
      rw [hc]
      rw [← heq]
      exact AgentRegistry.foldl_minStep_mem xs x
    have hle : ∀ p ∈
        reg.filter (fun p => AgentRegistry.isCandidate agent_type complexity p.2),
        b0.current_load ≤ p.2.current_load := by
      intro p hp
      rw [hc] at hp
      have h2 := AgentRegistry.foldl_minStep_le xs x p hp
      rw [heq] at h2
      exact h2
    have hin : (bid, b0) ∈ reg := List.mem_of_mem_filter hmem
    have hcand : AgentRegistry.isCandidate agent_type complexity b0 = true := by
      have := List.of_mem_filter hmem
      simpa using this
    obtain ⟨h1, h2, h3, h4⟩ := (AgentRegistry.isCandidate_iff _ _ _).mp hcand
    refine ⟨?_, ?_, ?_⟩
    · simp only [reduceCtorEq, false_iff]
      intro hnil
      rw [hnil] at hc
      exact List.noConfusion hc
    · intro h
      exact absurd h (by simp)
    · intro best_id a h
      simp only [Option.some.injEq, Prod.mk.injEq] at h
      obtain ⟨hid, ha⟩ := h
      subst hid
      exact ⟨b0, hin, h1, h2, h3, h4, ha.symm, hle, by rw [← ha]⟩

/-- Registry for the C8 witness: two backend agents at loads 1 and 3,
both with max load 5 and max complexity 10. -/
def witnessRegistry : AgentRegistry.Registry :=
  [("b1", ⟨"backend", "active", 1, 5, 10⟩),
   ("b2", ⟨"backend", "active", 3, 5, 10⟩)]

/-- Witness for C8 at the example scenario of the spec: requesting a
backend agent for complexity 7 returns the load-1 agent at load 2, and
the theorem instantiates on that call. -/
theorem C8_get_best_agent_selection_witness :
    (AgentRegistry.get_best_agent witnessRegistry "backend" "api_development" 7).1 =
      some ("b1", ⟨"backend", "active", 2, 5, 10⟩)
    ∧ ∃ a0 : AgentRegistry.AgentRec,
        ("b1", a0) ∈ witnessRegistry ∧
        a0.agent_type = "backend" ∧ a0.status = "active" ∧
        a0.current_load < a0.max_load ∧ (7 : Int) ≤ a0.max_complexity ∧
        (⟨"backend", "active", 2, 5, 10⟩ : AgentRegistry.AgentRec) =
          { a0 with current_load := a0.current_load + 1 } ∧
        (∀ p ∈ witnessRegistry.filter
            (fun p => AgentRegistry.isCandidate "backend" 7 p.2),
          a0.current_load ≤ p.2.current_load) ∧
        (AgentRegistry.get_best_agent witnessRegistry "backend" "api_development" 7).2 =
          AgentRegistry.setAgent witnessRegistry "b1" ⟨"backend", "active", 2, 5, 10⟩ := by
  have h : (AgentRegistry.get_best_agent witnessRegistry "backend" "api_development" 7).1 =
      some ("b1", ⟨"backend", "active", 2, 5, 10⟩) := by decide
  exact ⟨h,
    (C8_get_best_agent_selection witnessRegistry "backend" "api_development" 7).2.2
      "b1" ⟨"backend", "active", 2, 5, 10⟩ h⟩

namespace TeamLeader

theorem delegate_fail_rules (st : TLState) (spec : RulesEngine.TaskSpec)
    (outcome : ExecOutcome) (h : outcome.isFailure = true) :
    (delegate_task st spec outcome).2.rules = st.rules := by
  unfold delegate_task
  cases hv : (RulesEngine.validate_scope st.rules spec).1 with
  | error v => simp [failDelegation]
  | ok b =>
    split_ifs with hb
    · simp [failDelegation]
    · cases outcome with
      | succeeds resultOk =>
        simp only [ExecOutcome.isFailure, Bool.not_eq_true'] at h
        subst h
        simp [failDelegation]
      | agentUnavailable => simp [failDelegation]
      | raisesError => simp [failDelegation]
      | timesOut => simp [failDelegation]

theorem delegate_fail_no_rollback (st : TLState) (spec : RulesEngine.TaskSpec)
    (outcome : ExecOutcome) (h : outcome.isFailure = true)
    (hv : (RulesEngine.validate_scope st.rules spec).1 = .ok true)
    (hb : st.metrics.complexity_budget_used + spec.complexity ≤ st.config_budget) :
    (∃ e, (delegate_task st spec outcome).1 = .error e)
    ∧ (delegate_task st spec outcome).2.metrics.complexity_budget_used =
        st.metrics.complexity_budget_used + spec.complexity := by
  unfold delegate_task
  rw [hv]
  rw [if_neg (by omega)]
  cases outcome with
  | succeeds resultOk =>
    simp only [ExecOutcome.isFailure, Bool.not_eq_true'] at h
    subst h
    simp [failDelegation]
  | agentUnavailable => simp [failDelegation]
  | raisesError => simp [failDelegation]
  | timesOut => simp [failDelegation]

theorem delegate_budget_check_trips (st : TLState) (spec : RulesEngine.TaskSpec)
    (outcome : ExecOutcome)
    (hv : (RulesEngine.validate_scope st.rules spec).1 = .ok true)
    (hb : st.metrics.complexity_budget_used + spec.complexity > st.config_budget) :
    (delegate_task st spec outcome).1 = .error .budgetExceeded
    ∧ (delegate_task st spec outcome).2.metrics.complexity_budget_used =
        st.metrics.complexity_budget_used
    ∧ (delegate_task st spec outcome).2.rules = st.rules := by
  unfold delegate_task
  rw [hv]
  rw [if_pos hb]
  simp [failDelegation]

theorem iterate_delegations_rules (st : TLState) (spec : RulesEngine.TaskSpec)
    (outcome : ExecOutcome) (h : outcome.isFailure = true) (n : Nat) :
    (iterate_delegations st spec outcome n).rules = st.rules := by
  induction n with
  | zero => rfl
  | succ n ih =>
    rw [iterate_delegations, delegate_fail_rules _ _ _ h, ih]

end TeamLeader

/-- C9: when a delegation fails after passing validate_scope and the
metrics budget check (agent unavailable, agent execution error, timeout,
or result-quality rejection), complexity_budget_used stays incremented
by the task complexity with no rollback while the rules engine state,
its current_complexity_used included, is untouched since
register_task_execution runs only on success; a delegation whose
metrics budget check trips fails with the budget error while leaving
both counters where they were; and any number of repeated failed
delegations leaves the rules engine unchanged, so the two counters
diverge and failures alone can exhaust the budget check of
delegate_task. -/
theorem C9_failed_delegations_diverge (st : TeamLeader.TLState)
    (spec : RulesEngine.TaskSpec) (outcome : TeamLeader.ExecOutcome)
    (h : outcome.isFailure = true) :
    (TeamLeader.delegate_task st spec outcome).2.rules = st.rules
    ∧ ((RulesEngine.validate_scope st.rules spec).1 = .ok true →
        st.metrics.complexity_budget_used + spec.complexity ≤ st.config_budget →
        (∃ e, (TeamLeader.delegate_task st spec outcome).1 = .error e) ∧
        (TeamLeader.delegate_task st spec outcome).2.metrics.complexity_budget_used =
          st.metrics.complexity_budget_used + spec.complexity)
    ∧ ((RulesEngine.validate_scope st.rules spec).1 = .ok true →
        st.metrics.complexity_budget_used + spec.complexity > st.config_budget →
        (TeamLeader.delegate_task st spec outcome).1 = .error .budgetExceeded ∧
        (TeamLeader.delegate_task st spec outcome).2.rules = st.rules)
    ∧ (∀ n, (TeamLeader.iterate_delegations st spec outcome n).rules = st.rules) :=
  ⟨TeamLeader.delegate_fail_rules st spec outcome h,
   fun hv hb => TeamLeader.delegate_fail_no_rollback st spec outcome h hv hb,
   fun hv hb =>
     ⟨(TeamLeader.delegate_budget_check_trips st spec outcome hv hb).1,
      (TeamLeader.delegate_budget_check_trips st spec outcome hv hb).2.2⟩,
   TeamLeader.iterate_delegations_rules st spec outcome h⟩

/-- TeamLeader state for the C9 witness: fresh metrics, the default
budget 25 on both the engine and the configuration, one registered
research agent. -/
def witnessTLState : TeamLeader.TLState :=
  { rules := { RulesEngine.initState 25 with agent_registry := [("research", [])] },
    metrics := ⟨0, 0, 0, 0, 0⟩,
    config_budget := 25 }

/-- Task for the C9 witness: a complexity-3 validation task allowed in
the initialization phase. -/
def witnessTask : RulesEngine.TaskSpec :=
  ⟨"t1", "research", "validation", "demo", 3, 5⟩

/-- Witness for C9 at a concrete run: one failing delegation from the
initial state increments only the metrics counter, and after eight
failed delegations of complexity 3 the ninth trips the budget check of
delegate_task (24 + 3 > 25) even though the rules engine still reports
zero used complexity. -/
theorem C9_failed_delegations_diverge_witness :
    (TeamLeader.delegate_task witnessTLState witnessTask .raisesError).2.rules =
      witnessTLState.rules
    ∧ (TeamLeader.delegate_task witnessTLState
        witnessTask .raisesError).2.metrics.complexity_budget_used =
        witnessTLState.metrics.complexity_budget_used + witnessTask.complexity
    ∧ (TeamLeader.iterate_delegations witnessTLState witnessTask .raisesError
        8).metrics.complexity_budget_used = 24
    ∧ (TeamLeader.delegate_task
        (TeamLeader.iterate_delegations witnessTLState witnessTask .raisesError 8)
        witnessTask .raisesError).1 = .error .budgetExceeded
    ∧ (TeamLeader.iterate_delegations witnessTLState witnessTask .raisesError
        8).rules.current_complexity_used = 0 := by
  refine ⟨?_, ?_, by decide, by rfl, by decide⟩
  · exact (C9_failed_delegations_diverge witnessTLState witnessTask .raisesError
      (by decide)).1
  · exact ((C9_failed_delegations_diverge witnessTLState witnessTask .raisesError
      (by decide)).2.1 (by rfl) (by decide)).2

namespace TaskOrchestrator

theorem upd_self {α : Type} (f : Nat → Option α) (tid : Nat) (v : Option α) :
    upd f tid v tid = v := by
  simp [upd]

theorem upd_other {α : Type} (f : Nat → Option α) (tid : Nat) (v : Option α)
    (t : Nat) (h : t ≠ tid) : upd f tid v t = f t := by
  simp [upd, h]

theorem sweepOne_status_other (s : OrchState) (tid t : Nat) (h : t ≠ tid) :
    (sweepOne s tid).status t = s.status t := by
  simp [sweepOne, upd, h]

theorem sweepOne_pc (s : OrchState) (tid : Nat) :
    (sweepOne s tid).pc = s.pc := rfl

theorem foldl_sweepOne_pc (l : List Nat) (s : OrchState) :
    (l.foldl sweepOne s).pc = s.pc := by
  induction l generalizing s with
  | nil => rfl
  | cons x xs ih =>
    rw [List.foldl_cons, ih]
    rfl

theorem foldl_sweepOne_status_of_not_mem (l : List Nat) (s : OrchState) (t : Nat)
    (h : t ∉ l) : (l.foldl sweepOne s).status t = s.status t := by
  induction l generalizing s with
  | nil => rfl
  | cons x xs ih =>
    rw [List.foldl_cons, ih (sweepOne s x) (fun hm => h (List.mem_cons_of_mem x hm))]
    exact sweepOne_status_other s x t (fun he => h (he ▸ List.mem_cons_self x xs))

theorem foldl_sweepOne_status_of_mem (l : List Nat) (s : OrchState) (t : Nat)
    (h : t ∈ l) : (l.foldl sweepOne s).status t = some .failed := by
  induction l generalizing s with
  | nil => exact absurd h (List.not_mem_nil t)
  | cons x xs ih =>
    rw [List.foldl_cons]
    by_cases hxs : t ∈ xs
    · exact ih (sweepOne s x) hxs
    · have hx : t = x := by
        rcases List.mem_cons.mp h with h1 | h1
        · exact h1
        · exact absurd h1 hxs
      rw [foldl_sweepOne_status_of_not_mem xs _ t hxs, hx]
      simp [sweepOne, upd]

/-- A status the orchestrator can write: neither delegated nor timeout. -/
def writableStatus (st : TStatus) : Prop :=
  st ≠ .delegated ∧ st ≠ .timeout

theorem writable_of_upd (f : Nat → Option TStatus) (tid : Nat) (v : TStatus)
    (hv : writableStatus v)
    (h : ∀ t st, f t = some st → writableStatus st) :
    ∀ t st, upd f tid (some v) t = some st → writableStatus st := by
  intro t st hst
  unfold upd at hst
  split_ifs at hst with ht
  · cases hst
    exact hv
  · exact h t st hst

theorem step_writable (s : OrchState) (e : OrchEvent)
    (h : ∀ t st, s.status t = some st → writableStatus st) :
    ∀ t st, (step s e).status t = some st → writableStatus st := by
  cases e with
  | createExec tid =>
    simp only [step]
    split_ifs
    · exact writable_of_upd s.status tid .pending ⟨by decide, by decide⟩ h
    · exact h
  | startExec tid =>
    simp only [step]
    split_ifs
    · exact writable_of_upd s.status tid .in_progress ⟨by decide, by decide⟩ h
    · exact h
  | abortNoAgent tid =>
    simp only [step]
    split_ifs
    · exact h
    · exact h
  | finishOk tid =>
    simp only [step]
    split_ifs
    · exact writable_of_upd s.status tid .completed ⟨by decide, by decide⟩ h
    · exact h
  | finishErr tid =>
    simp only [step]
    split_ifs
    · exact writable_of_upd s.status tid .failed ⟨by decide, by decide⟩ h
    · exact h
  | cancel tid =>
    simp only [step]
    split_ifs
    · exact writable_of_upd s.status tid .cancelled ⟨by decide, by decide⟩ h
    · exact h
  | sweep overdue =>
    simp only [step]
    intro t st
    by_cases hmem : t ∈ s.active.filter
        (fun x => x ∈ overdue ∧ s.status x = some .in_progress)
    · rw [foldl_sweepOne_status_of_mem _ _ _ hmem]
      intro hv
      cases hv
      exact ⟨by decide, by decide⟩
    · rw [foldl_sweepOne_status_of_not_mem _ _ _ hmem]
      exact h t st
  | shutdownAll =>
    simp only [step]
    intro t st hv
    by_cases ha : t ∈ s.active
    · rw [if_pos ha] at hv
      cases hv
      exact ⟨by decide, by decide⟩
    · rw [if_neg ha] at hv
      exact h t st hv

theorem run_writable_aux (events : List OrchEvent) (s : OrchState)
    (h : ∀ t st, s.status t = some st → writableStatus st) :
    ∀ t st, (run s events).status t = some st → writableStatus st := by
  induction events generalizing s with
  | nil => exact h
  | cons e es ih => exact ih (step s e) (step_writable s e h)

theorem run_writable (events : List OrchEvent) :
    ∀ t st, (run orchInit events).status t = some st → writableStatus st := by
  refine run_writable_aux events orchInit ?_
  intro t st hv
  exact absurd hv (by simp [orchInit])

end TaskOrchestrator

/-- C10: no orchestrator operation ever assigns the delegated or timeout
status: after any interleaving from the initial state, every recorded
status lies in the written set pending, in_progress, completed, failed,
cancelled; and one sweep pass marks an overdue in-progress active task
failed, not timeout. -/
theorem C10_no_delegated_no_timeout (events : List TaskOrchestrator.OrchEvent)
    (s : TaskOrchestrator.OrchState) (t : Nat) (overdue : List Nat) :
    (∀ tid st, (TaskOrchestrator.run TaskOrchestrator.orchInit events).status tid =
        some st → st ≠ .delegated ∧ st ≠ .timeout)
    ∧ (t ∈ s.active → s.status t = some .in_progress → t ∈ overdue →
        (TaskOrchestrator.step s (.sweep overdue)).status t = some .failed) := by
  constructor
  · intro tid st hst
    exact TaskOrchestrator.run_writable events tid st hst
  · intro ha hip hov
    simp only [TaskOrchestrator.step]
    refine TaskOrchestrator.foldl_sweepOne_status_of_mem _ _ _ ?_
    rw [List.mem_filter]
    refine ⟨ha, ?_⟩
    simp [hov, hip]

/-- Witness for C10: a concrete run (a task created, started, and swept
as overdue) keeps the status inside the written set, and the sweep
conjunct applies to the state just before the sweep, marking the task
failed. -/
theorem C10_no_delegated_no_timeout_witness :
    ((TaskOrchestrator.run TaskOrchestrator.orchInit
        [.createExec 0, .startExec 0, .sweep [0]]).status 0 = some .failed)
    ∧ ((TaskOrchestrator.step
        (TaskOrchestrator.run TaskOrchestrator.orchInit
          [.createExec 0, .startExec 0]) (.sweep [0])).status 0 = some .failed)
    ∧ (TaskOrchestrator.TStatus.failed ≠ .delegated ∧
       TaskOrchestrator.TStatus.failed ≠ .timeout) := by
  refine ⟨by decide, ?_, ?_⟩
  · exact (C10_no_delegated_no_timeout []
      (TaskOrchestrator.run TaskOrchestrator.orchInit [.createExec 0, .startExec 0])
      0 [0]).2 (by decide) (by decide) (by decide)
  · exact (C10_no_delegated_no_timeout [.createExec 0, .startExec 0, .sweep [0]]
      TaskOrchestrator.orchInit 0 []).1 0 .failed (by decide)

/-- C3: the inner _execute_with_agent does raise a typed TimeoutError
when the agent call exceeds the timeout, but the except-clause of
execute_task wraps every exception in a TaskExecutionError carrying only
the interpolated message, so the immediate caller of execute_task
receives the identical TaskExecutionError value for a timed-out agent
and for an agent that raised an exception with the same text: the two
failure kinds are not distinguishable at that boundary, although the
docstring of execute_task promises a TimeoutError on timeout. -/
theorem C3_timeout_wrapped_into_task_execution_error :
    TaskOrchestrator.execute_with_agent .hangs 300 =
      .error (.timeoutError "Task execution timed out after 300 seconds")
    ∧ TaskOrchestrator.execute_task_result (some .hangs) 300 =
      .error (.taskExecutionError
        "Task execution failed: Task execution timed out after 300 seconds")
    ∧ TaskOrchestrator.execute_task_result
        (some (.raises "Task execution timed out after 300 seconds")) 300 =
      .error (.taskExecutionError
        "Task execution failed: Task execution timed out after 300 seconds")
    ∧ TaskOrchestrator.execute_task_result (some .hangs) 300 =
      TaskOrchestrator.execute_task_result
        (some (.raises "Task execution timed out after 300 seconds")) 300 :=
  ⟨rfl, rfl, rfl, rfl⟩

/-- C4 counterexample: a task is created and started by execute_task,
cancel_task runs at the suspension point of the awaited agent call and
sets the terminal status cancelled, and when the agent call returns,
_complete_task_execution overwrites the terminal status with completed:
the task resurrects from a terminal state. -/
theorem C4_terminal_status_resurrects :
    TaskOrchestrator.TStatus.isTerminal .cancelled = true
    ∧ (TaskOrchestrator.run TaskOrchestrator.orchInit
        [.createExec 0, .startExec 0, .cancel 0]).status 0 = some .cancelled
    ∧ (TaskOrchestrator.run TaskOrchestrator.orchInit
        [.createExec 0, .startExec 0, .cancel 0, .finishOk 0]).status 0 =
        some .completed
    ∧ TaskOrchestrator.TStatus.completed ≠ TaskOrchestrator.TStatus.cancelled := by
  refine ⟨rfl, by decide, by decide, by decide⟩

namespace TaskOrchestrator

theorem createExec_status (s : OrchState) (tid t : Nat) :
    (step s (.createExec tid)).status t =
      if s.pc tid = none ∧ t = tid then some .pending else s.status t := by
  simp only [step]
  split_ifs with h1 h2 h3 <;> simp_all [upd]

theorem createExec_pc (s : OrchState) (tid t : Nat) :
    (step s (.createExec tid)).pc t =
      if s.pc tid = none ∧ t = tid then some .created else s.pc t := by
  simp only [step]
  split_ifs with h1 h2 h3 <;> simp_all [upd]

theorem startExec_status (s : OrchState) (tid t : Nat) :
    (step s (.startExec tid)).status t =
      if s.pc tid = some .created ∧ t = tid then some .in_progress
      else s.status t := by
  simp only [step]
  split_ifs with h1 h2 h3 <;> simp_all [upd]

theorem startExec_pc (s : OrchState) (tid t : Nat) :
    (step s (.startExec tid)).pc t =
      if s.pc tid = some .created ∧ t = tid then some .running else s.pc t := by
  simp only [step]
  split_ifs with h1 h2 h3 <;> simp_all [upd]

theorem abortNoAgent_status (s : OrchState) (tid t : Nat) :
    (step s (.abortNoAgent tid)).status t = s.status t := by
  simp only [step]
  split_ifs <;> rfl

theorem abortNoAgent_pc (s : OrchState) (tid t : Nat) :
    (step s (.abortNoAgent tid)).pc t =
      if s.pc tid = some .created ∧ t = tid then some .finished else s.pc t := by
  simp only [step]
  split_ifs with h1 h2 h3 <;> simp_all [upd]

theorem finishOk_status (s : OrchState) (tid t : Nat) :
    (step s (.finishOk tid)).status t =
      if s.pc tid = some .running ∧ t = tid then some .completed
      else s.status t := by
  simp only [step]
  split_ifs with h1 h2 h3 <;> simp_all [upd]

theorem finishOk_pc (s : OrchState) (tid t : Nat) :
    (step s (.finishOk tid)).pc t =
      if s.pc tid = some .running ∧ t = tid then some .finished else s.pc t := by
  simp only [step]
  split_ifs with h1 h2 h3 <;> simp_all [upd]

theorem finishErr_status (s : OrchState) (tid t : Nat) :
    (step s (.finishErr tid)).status t =
      if s.pc tid = some .running ∧ t = tid then some .failed
      else s.status t := by
  simp only [step]
  split_ifs with h1 h2 h3 <;> simp_all [upd]

theorem finishErr_pc (s : OrchState) (tid t : Nat) :
    (step s (.finishErr tid)).pc t =
      if s.pc tid = some .running ∧ t = tid then some .finished else s.pc t := by
  simp only [step]
  split_ifs with h1 h2 h3 <;> simp_all [upd]

theorem cancel_status (s : OrchState) (tid t : Nat) :
    (step s (.cancel tid)).status t =
      if tid ∈ s.active ∧ t = tid then some .cancelled else s.status t := by
  simp only [step]
  split_ifs with h1 h2 h3 <;> simp_all [upd]

theorem cancel_pc (s : OrchState) (tid t : Nat) :
    (step s (.cancel tid)).pc t = s.pc t := by
  simp only [step]
  split_ifs <;> rfl

theorem sweep_status (s : OrchState) (overdue : List Nat) (t : Nat) :
    (step s (.sweep overdue)).status t =
      if t ∈ s.active.filter
          (fun x => x ∈ overdue ∧ s.status x = some .in_progress)
      then some .failed else s.status t := by
  simp only [step]
  split_ifs with h1
  · exact foldl_sweepOne_status_of_mem _ _ _ h1
  · exact foldl_sweepOne_status_of_not_mem _ _ _ h1

theorem sweep_pc (s : OrchState) (overdue : List Nat) (t : Nat) :
    (step s (.sweep overdue)).pc t = s.pc t := by
  simp only [step]
  rw [foldl_sweepOne_pc]

theorem shutdownAll_status (s : OrchState) (t : Nat) :
    (step s (.shutdownAll)).status t =
      if t ∈ s.active then some .cancelled else s.status t := by
  simp only [step]

theorem shutdownAll_pc (s : OrchState) (t : Nat) :
    (step s (.shutdownAll)).pc t = s.pc t := rfl

end TaskOrchestrator

namespace TaskOrchestrator

theorem createExec_active (s : OrchState) (tid : Nat) :
    (step s (.createExec tid)).active =
      if s.pc tid = none then s.active ++ [tid] else s.active := by
  simp only [step]
  split_ifs <;> rfl

theorem startExec_active (s : OrchState) (tid : Nat) :
    (step s (.startExec tid)).active = s.active := by
  simp only [step]
  split_ifs <;> rfl

theorem abortNoAgent_active (s : OrchState) (tid : Nat) :
    (step s (.abortNoAgent tid)).active = s.active := by
  simp only [step]
  split_ifs <;> rfl

theorem finishOk_active (s : OrchState) (tid : Nat) :
    (step s (.finishOk tid)).active =
      if s.pc tid = some .running then s.active.erase tid else s.active := by
  simp only [step]
  split_ifs <;> rfl

theorem finishErr_active (s : OrchState) (tid : Nat) :
    (step s (.finishErr tid)).active =
      if s.pc tid = some .running then s.active.erase tid else s.active := by
  simp only [step]
  split_ifs <;> rfl

theorem cancel_active (s : OrchState) (tid : Nat) :
    (step s (.cancel tid)).active =
      if tid ∈ s.active then s.active.erase tid else s.active := by
  simp only [step]
  split_ifs <;> rfl

theorem shutdownAll_active (s : OrchState) :
    (step s (.shutdownAll)).active = s.active := rfl

theorem sweepOne_active (s : OrchState) (tid : Nat) :
    (sweepOne s tid).active = s.active.erase tid := rfl

theorem foldl_sweepOne_active_subset (l : List Nat) (s : OrchState) (t : Nat)
    (h : t ∈ (l.foldl sweepOne s).active) : t ∈ s.active := by
  induction l generalizing s with
  | nil => exact h
  | cons x xs ih =>
    rw [List.foldl_cons] at h
    have h2 := ih (sweepOne s x) h
    rw [sweepOne_active] at h2
    exact List.mem_of_mem_erase h2

theorem foldl_sweepOne_nodup (l : List Nat) (s : OrchState)
    (h : s.active.Nodup) : (l.foldl sweepOne s).active.Nodup := by
  induction l generalizing s with
  | nil => exact h
  | cons x xs ih =>
    rw [List.foldl_cons]
    exact ih (sweepOne s x) (by rw [sweepOne_active]; exact h.erase x)

theorem foldl_sweepOne_not_mem_active (l : List Nat) (s : OrchState) (t : Nat)
    (hnd : s.active.Nodup) (h : t ∈ l) :
    t ∉ (l.foldl sweepOne s).active := by
  induction l generalizing s with
  | nil => exact absurd h (List.not_mem_nil t)
  | cons x xs ih =>
    rw [List.foldl_cons]
    by_cases hxs : t ∈ xs
    · exact ih (sweepOne s x) (by rw [sweepOne_active]; exact hnd.erase x) hxs
    · have hx : t = x := by
        rcases List.mem_cons.mp h with h1 | h1
        · exact h1
        · exact absurd h1 hxs
      intro hmem
      have h2 := foldl_sweepOne_active_subset xs _ t hmem
      rw [sweepOne_active, hx] at h2
      exact (List.Nodup.not_mem_erase hnd) h2

/-- Reachability invariant of the orchestrator state: active task ids
are distinct, every active task has a dispatched coroutine, a task
without a coroutine has no status, and the only terminal status an
active task can carry is cancelled. -/
def OrchInv (s : OrchState) : Prop :=
  s.active.Nodup
  ∧ (∀ t, t ∈ s.active → s.pc t ≠ none)
  ∧ (∀ t, s.pc t = none → s.status t = none)
  ∧ (∀ t st, t ∈ s.active → s.status t = some st → st.isTerminal = true →
      st = .cancelled)

theorem orchInit_inv : OrchInv orchInit := by
  refine ⟨List.nodup_nil, ?_, ?_, ?_⟩
  · intro t ht
    exact absurd ht (List.not_mem_nil t)
  · intro t _
    rfl
  · intro t st ht
    exact absurd ht (List.not_mem_nil t)

end TaskOrchestrator

namespace TaskOrchestrator

theorem step_inv (s : OrchState) (e : OrchEvent) (h : OrchInv s) :
    OrchInv (step s e) := by
  obtain ⟨hnd, hap, hps, htc⟩ := h
  cases e with
  | createExec tid =>
    refine ⟨?_, ?_, ?_, ?_⟩
    · rw [createExec_active]
      split_ifs with hg
      · have hno : tid ∉ s.active := fun hm => hap tid hm hg
        simp [List.nodup_append, hnd, hno]
      · exact hnd
    · intro t ht
      rw [createExec_pc]
      rw [createExec_active] at ht
      split_ifs with hc
      · simp
      · split_ifs at ht with hg
        · rcases List.mem_append.mp ht with h1 | h1
          · exact hap t h1
          · simp only [List.mem_singleton] at h1
            exact absurd ⟨hg, h1⟩ hc
        · exact hap t ht
    · intro t hpct
      rw [createExec_status]
      rw [createExec_pc] at hpct
      split_ifs at hpct with hc
      rw [if_neg hc]
      exact hps t hpct
    · intro t st ht hst hterm
      rw [createExec_status] at hst
      rw [createExec_active] at ht
      split_ifs at hst with hc
      · cases hst
        exact absurd hterm (by decide)
      · split_ifs at ht with hg
        · rcases List.mem_append.mp ht with h1 | h1
          · exact htc t st h1 hst hterm
          · simp only [List.mem_singleton] at h1
            exact absurd ⟨hg, h1⟩ hc
        · exact htc t st ht hst hterm
  | startExec tid =>
    refine ⟨?_, ?_, ?_, ?_⟩
    · rw [startExec_active]
      exact hnd
    · intro t ht
      rw [startExec_pc]
      rw [startExec_active] at ht
      split_ifs with hc
      · simp
      · exact hap t ht
    · intro t hpct
      rw [startExec_status]
      rw [startExec_pc] at hpct
      split_ifs at hpct with hc
      rw [if_neg hc]
      exact hps t hpct
    · intro t st ht hst hterm
      rw [startExec_status] at hst
      rw [startExec_active] at ht
      split_ifs at hst with hc
      · cases hst
        exact absurd hterm (by decide)
      · exact htc t st ht hst hterm
  | abortNoAgent tid =>
    refine ⟨?_, ?_, ?_, ?_⟩
    · rw [abortNoAgent_active]
      exact hnd
    · intro t ht
      rw [abortNoAgent_pc]
      rw [abortNoAgent_active] at ht
      split_ifs with hc
      · simp
      · exact hap t ht
    · intro t hpct
      rw [abortNoAgent_status]
      rw [abortNoAgent_pc] at hpct
      split_ifs at hpct with hc
      exact hps t hpct
    · intro t st ht hst hterm
      rw [abortNoAgent_status] at hst
      rw [abortNoAgent_active] at ht
      exact htc t st ht hst hterm
  | finishOk tid =>
    refine ⟨?_, ?_, ?_, ?_⟩
    · rw [finishOk_active]
      split_ifs with hg
      · exact hnd.erase tid
      · exact hnd
    · intro t ht
      rw [finishOk_pc]
      rw [finishOk_active] at ht
      split_ifs with hc
      · simp
      · split_ifs at ht with hg
        · exact hap t (List.mem_of_mem_erase ht)
        · exact hap t ht
    · intro t hpct
      rw [finishOk_status]
      rw [finishOk_pc] at hpct
      split_ifs at hpct with hc
      rw [if_neg hc]
      exact hps t hpct
    · intro t st ht hst hterm
      rw [finishOk_status] at hst
      rw [finishOk_active] at ht
      split_ifs at hst ht with hc hg
      · exact absurd hc.2 ((hnd.mem_erase_iff).mp ht).1
      · exact absurd hc.1 hg
      · exact htc t st (List.mem_of_mem_erase ht) hst hterm
      · exact htc t st ht hst hterm
  | finishErr tid =>
    refine ⟨?_, ?_, ?_, ?_⟩
    · rw [finishErr_active]
      split_ifs with hg
      · exact hnd.erase tid
      · exact hnd
    · intro t ht
      rw [finishErr_pc]
      rw [finishErr_active] at ht
      split_ifs with hc
      · simp
      · split_ifs at ht with hg
        · exact hap t (List.mem_of_mem_erase ht)
        · exact hap t ht
    · intro t hpct
      rw [finishErr_status]
      rw [finishErr_pc] at hpct
      split_ifs at hpct with hc
      rw [if_neg hc]
      exact hps t hpct
    · intro t st ht hst hterm
      rw [finishErr_status] at hst
      rw [finishErr_active] at ht
      split_ifs at hst ht with hc hg
      · exact absurd hc.2 ((hnd.mem_erase_iff).mp ht).1
      · exact absurd hc.1 hg
      · exact htc t st (List.mem_of_mem_erase ht) hst hterm
      · exact htc t st ht hst hterm
  | cancel tid =>
    refine ⟨?_, ?_, ?_, ?_⟩
    · rw [cancel_active]
      split_ifs with hg
      · exact hnd.erase tid
      · exact hnd
    · intro t ht
      rw [cancel_pc]
      rw [cancel_active] at ht
      split_ifs at ht with hg
      · exact hap t (List.mem_of_mem_erase ht)
      · exact hap t ht
    · intro t hpct
      rw [cancel_status]
      rw [cancel_pc] at hpct
      split_ifs with hc
      · exact absurd (hc.2 ▸ hpct) (hap tid hc.1)
      · exact hps t hpct
    · intro t st ht hst hterm
      rw [cancel_status] at hst
      rw [cancel_active] at ht
      split_ifs at hst ht with hc hg
      · cases hst
        rfl
      · cases hst
        rfl
      · exact htc t st (List.mem_of_mem_erase ht) hst hterm
      · exact htc t st ht hst hterm
  | sweep overdue =>
    refine ⟨?_, ?_, ?_, ?_⟩
    · simp only [step]
      exact foldl_sweepOne_nodup _ s hnd
    · intro t ht
      rw [sweep_pc]
      simp only [step] at ht
      exact hap t (foldl_sweepOne_active_subset _ s t ht)
    · intro t hpct
      rw [sweep_status]
      rw [sweep_pc] at hpct
      split_ifs with hc
      · exact absurd hpct (hap t (List.mem_of_mem_filter hc))
      · exact hps t hpct
    · intro t st ht hst hterm
      rw [sweep_status] at hst
      simp only [step] at ht
      split_ifs at hst with hc
      · exact absurd ht (foldl_sweepOne_not_mem_active _ s t hnd hc)
      · exact htc t st (foldl_sweepOne_active_subset _ s t ht) hst hterm
  | shutdownAll =>
    refine ⟨?_, ?_, ?_, ?_⟩
    · rw [shutdownAll_active]
      exact hnd
    · intro t ht
      rw [shutdownAll_pc]
      rw [shutdownAll_active] at ht
      exact hap t ht
    · intro t hpct
      rw [shutdownAll_status]
      rw [shutdownAll_pc] at hpct
      split_ifs with hc
      · exact absurd hpct (hap t hc)
      · exact hps t hpct
    · intro t st ht hst hterm
      rw [shutdownAll_status] at hst
      rw [shutdownAll_active] at ht
      rw [if_pos ht] at hst
      cases hst
      rfl

theorem run_inv (events : List OrchEvent) (s : OrchState) (h : OrchInv s) :
    OrchInv (run s events) := by
  induction events generalizing s with
  | nil => exact h
  | cons e es ih => exact ih (step s e) (step_inv s e h)

end TaskOrchestrator

namespace TaskOrchestrator

theorem terminal_change_cases (s : OrchState) (e : OrchEvent) (t : Nat)
    (st : TStatus) (hinv : OrchInv s) (hst : s.status t = some st)
    (hterm : st.isTerminal = true)
    (hchange : (step s e).status t ≠ some st) :
    (e = .startExec t ∧ s.pc t = some .created ∧
       (step s e).status t = some .in_progress)
    ∨ (e = .finishOk t ∧ s.pc t = some .running ∧
       (step s e).status t = some .completed)
    ∨ (e = .finishErr t ∧ s.pc t = some .running ∧
       (step s e).status t = some .failed) := by
  obtain ⟨hnd, hap, hps, htc⟩ := hinv
  cases e with
  | createExec tid =>
    exfalso
    apply hchange
    rw [createExec_status]
    split_ifs with hc
    · have h0 : s.status tid = none := hps tid hc.1
      have h1 : s.status tid = some st := hc.2 ▸ hst
      rw [h0] at h1
      exact Option.noConfusion h1
    · exact hst
  | startExec tid =>
    by_cases hc : s.pc tid = some .created ∧ t = tid
    · left
      refine ⟨by rw [hc.2], hc.2 ▸ hc.1, ?_⟩
      rw [startExec_status, if_pos hc]
    · exfalso
      apply hchange
      rw [startExec_status, if_neg hc]
      exact hst
  | abortNoAgent tid =>
    exfalso
    apply hchange
    rw [abortNoAgent_status]
    exact hst
  | finishOk tid =>
    by_cases hc : s.pc tid = some .running ∧ t = tid
    · right
      left
      refine ⟨by rw [hc.2], hc.2 ▸ hc.1, ?_⟩
      rw [finishOk_status, if_pos hc]
    · exfalso
      apply hchange
      rw [finishOk_status, if_neg hc]
      exact hst
  | finishErr tid =>
    by_cases hc : s.pc tid = some .running ∧ t = tid
    · right
      right
      refine ⟨by rw [hc.2], hc.2 ▸ hc.1, ?_⟩
      rw [finishErr_status, if_pos hc]
    · exfalso
      apply hchange
      rw [finishErr_status, if_neg hc]
      exact hst
  | cancel tid =>
    exfalso
    apply hchange
    rw [cancel_status]
    split_ifs with hc
    · have h1 : st = .cancelled := htc t st (hc.2 ▸ hc.1) hst hterm
      rw [h1]
    · exact hst
  | sweep overdue =>
    exfalso
    apply hchange
    rw [sweep_status]
    split_ifs with hc
    · have h2 := List.of_mem_filter hc
      simp only [decide_eq_true_eq] at h2
      rw [hst] at h2
      have h3 := Option.some.inj h2.2
      subst h3
      exact absurd hterm (by decide)
    · exact hst
  | shutdownAll =>
    exfalso
    apply hchange
    rw [shutdownAll_status]
    split_ifs with hc
    · have h1 : st = .cancelled := htc t st hc hst hterm
      rw [h1]
    · exact hst

theorem step_frozen (s : OrchState) (e : OrchEvent) (t : Nat) (st : TStatus)
    (hinv : OrchInv s) (hpc : s.pc t = some .finished)
    (hst : s.status t = some st) (hterm : st.isTerminal = true) :
    (step s e).status t = some st ∧ (step s e).pc t = some .finished := by
  obtain ⟨hnd, hap, hps, htc⟩ := hinv
  cases e with
  | createExec tid =>
    constructor
    · rw [createExec_status]
      split_ifs with hc
      · exact absurd (hc.2 ▸ hpc) (by simp [hc.1])
      · exact hst
    · rw [createExec_pc]
      split_ifs with hc
      · exact absurd (hc.2 ▸ hpc) (by simp [hc.1])
      · exact hpc
  | startExec tid =>
    constructor
    · rw [startExec_status]
      split_ifs with hc
      · exact absurd (hc.2 ▸ hpc) (by simp [hc.1])
      · exact hst
    · rw [startExec_pc]
      split_ifs with hc
      · exact absurd (hc.2 ▸ hpc) (by simp [hc.1])
      · exact hpc
  | abortNoAgent tid =>
    constructor
    · rw [abortNoAgent_status]
      exact hst
    · rw [abortNoAgent_pc]
      split_ifs with hc
      · exact absurd (hc.2 ▸ hpc) (by simp [hc.1])
      · exact hpc
  | finishOk tid =>
    constructor
    · rw [finishOk_status]
      split_ifs with hc
      · exact absurd (hc.2 ▸ hpc) (by simp [hc.1])
      · exact hst
    · rw [finishOk_pc]
      split_ifs with hc
      · exact absurd (hc.2 ▸ hpc) (by simp [hc.1])
      · exact hpc
  | finishErr tid =>
    constructor
    · rw [finishErr_status]
      split_ifs with hc
      · exact absurd (hc.2 ▸ hpc) (by simp [hc.1])
      · exact hst
    · rw [finishErr_pc]
      split_ifs with hc
      · exact absurd (hc.2 ▸ hpc) (by simp [hc.1])
      · exact hpc
  | cancel tid =>
    constructor
    · rw [cancel_status]
      split_ifs with hc
      · have h1 : st = .cancelled := htc t st (hc.2 ▸ hc.1) hst hterm
        rw [h1]
      · exact hst
    · rw [cancel_pc]
      exact hpc
  | sweep overdue =>
    constructor
    · rw [sweep_status]
      split_ifs with hc
      · have h2 := List.of_mem_filter hc
        simp only [decide_eq_true_eq] at h2
        rw [hst] at h2
        have h3 := Option.some.inj h2.2
        subst h3
        exact absurd hterm (by decide)
      · exact hst
    · rw [sweep_pc]
      exact hpc
  | shutdownAll =>
    constructor
    · rw [shutdownAll_status]
      split_ifs with hc
      · have h1 : st = .cancelled := htc t st hc hst hterm
        rw [h1]
      · exact hst
    · rw [shutdownAll_pc]
      exact hpc

theorem run_frozen (events : List OrchEvent) (s : OrchState) (t : Nat)
    (st : TStatus) (hinv : OrchInv s) (hpc : s.pc t = some .finished)
    (hst : s.status t = some st) (hterm : st.isTerminal = true) :
    (run s events).status t = some st := by
  induction events generalizing s with
  | nil => exact hst
  | cons e es ih =>
    have h2 := step_frozen s e t st hinv hpc hst hterm
    exact ih (step s e) (step_inv s e hinv) h2.2 h2.1

end TaskOrchestrator

/-- C4 amended: in every reachable state, the only steps that change a
task status already in the terminal set are the remaining steps of the
still-in-flight execute_task coroutine of that same task — its
_start_task_execution step (overwriting with in_progress) or its
completion/failure step (overwriting with completed or failed), racing a
cancel_task or timeout sweep that fired at one of its suspension points;
every other operation leaves a terminal status unchanged, and once the
coroutine has finished, a terminal status is never changed by any
further interleaving. -/
theorem C4_terminal_overwrites_only_inflight (tr future : List TaskOrchestrator.OrchEvent)
    (e : TaskOrchestrator.OrchEvent) (t : Nat) (st : TaskOrchestrator.TStatus)
    (hst : (TaskOrchestrator.run TaskOrchestrator.orchInit tr).status t = some st)
    (hterm : st.isTerminal = true) :
    ((TaskOrchestrator.step (TaskOrchestrator.run TaskOrchestrator.orchInit tr) e).status t ≠
        some st →
      (e = .startExec t ∧
         (TaskOrchestrator.run TaskOrchestrator.orchInit tr).pc t = some .created ∧
         (TaskOrchestrator.step (TaskOrchestrator.run TaskOrchestrator.orchInit tr) e).status t =
           some .in_progress)
      ∨ (e = .finishOk t ∧
         (TaskOrchestrator.run TaskOrchestrator.orchInit tr).pc t = some .running ∧
         (TaskOrchestrator.step (TaskOrchestrator.run TaskOrchestrator.orchInit tr) e).status t =
           some .completed)
      ∨ (e = .finishErr t ∧
         (TaskOrchestrator.run TaskOrchestrator.orchInit tr).pc t = some .running ∧
         (TaskOrchestrator.step (TaskOrchestrator.run TaskOrchestrator.orchInit tr) e).status t =
           some .failed))
    ∧ ((TaskOrchestrator.run TaskOrchestrator.orchInit tr).pc t = some .finished →
        (TaskOrchestrator.run (TaskOrchestrator.run TaskOrchestrator.orchInit tr)
          future).status t = some st) := by
  have hinv := TaskOrchestrator.run_inv tr TaskOrchestrator.orchInit
    TaskOrchestrator.orchInit_inv
  exact ⟨fun hchange =>
      TaskOrchestrator.terminal_change_cases _ e t st hinv hst hterm hchange,
    fun hpc =>
      TaskOrchestrator.run_frozen future _ t st hinv hpc hst hterm⟩

/-- Witness for the amended C4: the resurrection interleaving (create,
start, cancel, then the completion step) satisfies the characterization
— the change is the finishOk step of the in-flight coroutine — and for
a task whose coroutine has finished with status completed, cancel,
sweep and shutdown all leave the status completed. -/
theorem C4_terminal_overwrites_only_inflight_witness :
    ((TaskOrchestrator.OrchEvent.finishOk 0 = .startExec 0 ∧
        (TaskOrchestrator.run TaskOrchestrator.orchInit
          [.createExec 0, .startExec 0, .cancel 0]).pc 0 = some .created ∧
        (TaskOrchestrator.step (TaskOrchestrator.run TaskOrchestrator.orchInit
          [.createExec 0, .startExec 0, .cancel 0]) (.finishOk 0)).status 0 =
          some .in_progress)
      ∨ (TaskOrchestrator.OrchEvent.finishOk 0 = .finishOk 0 ∧
        (TaskOrchestrator.run TaskOrchestrator.orchInit
          [.createExec 0, .startExec 0, .cancel 0]).pc 0 = some .running ∧
        (TaskOrchestrator.step (TaskOrchestrator.run TaskOrchestrator.orchInit
          [.createExec 0, .startExec 0, .cancel 0]) (.finishOk 0)).status 0 =
          some .completed)
      ∨ (TaskOrchestrator.OrchEvent.finishOk 0 = .finishErr 0 ∧
        (TaskOrchestrator.run TaskOrchestrator.orchInit
          [.createExec 0, .startExec 0, .cancel 0]).pc 0 = some .running ∧
        (TaskOrchestrator.step (TaskOrchestrator.run TaskOrchestrator.orchInit
          [.createExec 0, .startExec 0, .cancel 0]) (.finishOk 0)).status 0 =
          some .failed))
    ∧ (TaskOrchestrator.run (TaskOrchestrator.run TaskOrchestrator.orchInit
        [.createExec 0, .startExec 0, .finishOk 0])
        [.cancel 0, .sweep [0], .shutdownAll]).status 0 = some .completed := by
  constructor
  · exact (C4_terminal_overwrites_only_inflight
      [.createExec 0, .startExec 0, .cancel 0] [] (.finishOk 0) 0 .cancelled
      (by decide) (by decide)).1 (by decide)
  · exact (C4_terminal_overwrites_only_inflight
      [.createExec 0, .startExec 0, .finishOk 0]
      [.cancel 0, .sweep [0], .shutdownAll] (.finishOk 0) 0 .completed
      (by decide) (by decide)).2 (by decide)
